import Mathlib

/-!
Shallow embedding of the crypto-tax-tool engine (TypeScript sources) in Lean 4.

Modelling conventions, fixed once for the whole development:

* `Decimal` values (decimal.js) are modelled as exact rationals `ℚ`, following the
  data model of the specification ("all monetary and crypto quantities are exact
  decimals"); decimal.js only rounds beyond 20 significant digits, which no claim
  exercises on the algebraic level studied here.  Division `x / 0` is `0` in `ℚ`
  where decimal.js would produce `NaN`; the one place this matters
  (`createIncomeLot` with a zero amount) is unreachable through the parser, which
  rejects non-positive amounts.
* JavaScript `Date` objects are modelled by their `getTime()` value: an integer
  number of milliseconds since the Unix epoch (`ℤ`).  `Date.prototype.getFullYear`
  depends on the host time zone; it is modelled by `localYearOfMs tz t` where `tz`
  is the host's fixed UTC offset in minutes (0 for a UTC host).
* JavaScript `Array.prototype.sort` is guaranteed stable (ES2019); a stable sort
  by a total preorder has a unique result, so it is modelled by Mathlib's
  (stable) `List.insertionSort`.
* JavaScript `Map` preserves insertion order; it is modelled by an association
  list (`assocGet` / `assocSet`), where `assocSet` updates in place and appends
  new keys at the end, exactly like `Map.set`.
* Thrown exceptions are modelled by `Option`/sum results: `consumeLots` returns
  `none` for the thrown `Insufficient lots` error, and the state component it
  returns is the pool as left behind by the throw (the source mutates the shared
  lot objects before it checks for insufficiency, so the post-throw pool is part
  of the observable behaviour and is modelled faithfully).
* `tx.field!` non-null assertions: a missing amount flows into `new Decimal
  (undefined)`, which throws and is caught by the per-transaction handler; this
  is modelled as the caught-error branch.  (The pathological case "asset missing
  but amount present", where the source would file a lot under the key
  `undefined`, is folded into the same error branch.)
-/

namespace CryptoTax

/-- Transaction kinds, from the `TransactionType` enum of `engine/types.ts`. -/
inductive TransactionType where
  | BUY | SELL | TRADE | SEND | RECEIVE | MINING | STAKING | AIRDROP | FORK
  | SPEND | GIFT_SENT | GIFT_RECEIVED | INCOME
deriving DecidableEq, Repr

/-- Cost basis selection methods, from the `CostBasisMethod` enum. -/
inductive CostBasisMethod where
  | FIFO | LIFO | HIFO
deriving DecidableEq, Repr

/-- A tax lot (`TaxLot` in `engine/types.ts`).  Lot ids `lot-N` are modelled by
their numeric part `N`. -/
structure TaxLot where
  id : ℕ
  asset : String
  amount : ℚ
  originalAmount : ℚ
  costBasisPerUnit : ℚ
  acquisitionDate : ℤ
  acquisitionType : TransactionType
  wallet : String
deriving DecidableEq, Repr

/-- A parsed transaction (`Transaction` in `engine/types.ts`); optional fields are
`Option`s, mirroring the optional interface members. -/
structure Transaction where
  dateTime : ℤ
  type : TransactionType
  sentAsset : Option String
  sentAmount : Option ℚ
  sentAssetPriceUsd : Option ℚ
  receivedAsset : Option String
  receivedAmount : Option ℚ
  receivedAssetPriceUsd : Option ℚ
  feeAmount : Option ℚ
  feeAsset : Option String
  feeUsd : Option ℚ
  wallet : String
  txHash : Option String
  notes : Option String
deriving DecidableEq, Repr

/-- One row of the result of matching lots to a disposal (`DisposalResult`).
The disposal engine also records the consumed `amount` on each result. -/
structure DisposalResult where
  asset : String
  amount : ℚ
  disposalDate : ℤ
  disposalType : TransactionType
  proceeds : ℚ
  costBasis : ℚ
  gainOrLoss : ℚ
  isLongTerm : Bool
  holdingDays : ℤ
  acquisitionDate : ℤ
  lotId : ℕ
deriving DecidableEq, Repr

/-- An ordinary income event (`IncomeEvent`). -/
structure IncomeEvent where
  date : ℤ
  type : TransactionType
  asset : String
  amount : ℚ
  fairMarketValueUsd : ℚ
  wallet : String
deriving DecidableEq, Repr

/-! ### engine/holding-period.ts -/

/-- Milliseconds per day, as in `getHoldingDays`. -/
def msPerDay : ℤ := 86400000

/-- Day threshold for long-term treatment (`LONG_TERM_HOLDING_DAYS`). -/
def LONG_TERM_HOLDING_DAYS : ℤ := 365

/-- Number of days held: `Math.floor((disposal - acquisition) / msPerDay)`.
`Int.fdiv` is floor division, matching `Math.floor` on the real quotient. -/
def getHoldingDays (acquisitionDate disposalDate : ℤ) : ℤ :=
  Int.fdiv (disposalDate - acquisitionDate) msPerDay

/-- Long-term test: strictly more than 365 days held (`isLongTerm`). -/
def isLongTerm (acquisitionDate disposalDate : ℤ) : Bool :=
  LONG_TERM_HOLDING_DAYS < getHoldingDays acquisitionDate disposalDate

/-! ### lib/constants.ts -/

/-- Income transaction kinds (`INCOME_TYPES`). -/
def INCOME_TYPES : List TransactionType :=
  [.MINING, .STAKING, .AIRDROP, .FORK, .INCOME]

/-- Acquisition transaction kinds (`ACQUISITION_TYPES`). -/
def ACQUISITION_TYPES : List TransactionType :=
  [.BUY, .RECEIVE, .GIFT_RECEIVED]

/-! ### Association lists standing in for insertion-ordered JavaScript Maps -/

/-- Lookup in an insertion-ordered map (`Map.get`). -/
def assocGet {α : Type} : List (String × α) → String → Option α
  | [], _ => none
  | (k', v) :: rest, k => if k' = k then some v else assocGet rest k

/-- Update in an insertion-ordered map (`Map.set`): overwrites in place, appends
new keys at the end. -/
def assocSet {α : Type} : List (String × α) → String → α → List (String × α)
  | [], k, v => [(k, v)]
  | (k', v') :: rest, k, v =>
      if k' = k then (k', v) :: rest else (k', v') :: assocSet rest k v

/-! ### engine/lot-pool.ts (`WalletLotPool`) -/

/-- The lot pool: wallet → asset → insertion-ordered lots, plus the id counter.
`transferCount` instruments the number of `transferLots` invocations (the source
has no such field; it makes "transfer is never invoked" observable and is
touched by no other operation). -/
structure WalletLotPool where
  pools : List (String × List (String × List TaxLot))
  nextLotId : ℕ
  transferCount : ℕ
deriving DecidableEq, Repr

/-- A freshly constructed pool (`new WalletLotPool()`). -/
def emptyPool : WalletLotPool := ⟨[], 1, 0⟩

/-- `generateLotId()`: returns the current id and bumps the counter. -/
def generateLotId (p : WalletLotPool) : ℕ × WalletLotPool :=
  (p.nextLotId, { p with nextLotId := p.nextLotId + 1 })

/-- `addLot(lot)`: create the wallet and asset entries if needed, then push. -/
def addLot (p : WalletLotPool) (lot : TaxLot) : WalletLotPool :=
  let wm := (assocGet p.pools lot.wallet).getD []
  let entry := (assocGet wm lot.asset).getD []
  { p with pools := assocSet p.pools lot.wallet (assocSet wm lot.asset (entry ++ [lot])) }

/-- `getLots(wallet, asset)`. -/
def getLots (p : WalletLotPool) (wallet asset : String) : List TaxLot :=
  (assocGet ((assocGet p.pools wallet).getD []) asset).getD []

/-- Replace the lot list stored for `(wallet, asset)`.  Used to express both the
explicit `walletMap.set` and the in-place mutation of the shared lot objects. -/
def setLots (p : WalletLotPool) (wallet asset : String) (entry : List TaxLot) :
    WalletLotPool :=
  let wm := (assocGet p.pools wallet).getD []
  { p with pools := assocSet p.pools wallet (assocSet wm asset entry) }

/-- The sort order `consumeLots` applies for a method, on index-tagged lots (the
index records the lot's position in the underlying array, standing in for
JavaScript object identity).  `a ≼ b` iff the source comparator returns `≤ 0`. -/
def methodRel (m : CostBasisMethod) : ℕ × TaxLot → ℕ × TaxLot → Prop :=
  match m with
  | .FIFO => fun a b => a.2.acquisitionDate ≤ b.2.acquisitionDate
  | .LIFO => fun a b => b.2.acquisitionDate ≤ a.2.acquisitionDate
  | .HIFO => fun a b => b.2.costBasisPerUnit ≤ a.2.costBasisPerUnit

instance (m : CostBasisMethod) : DecidableRel (methodRel m) := by
  cases m <;> exact fun a b => inferInstanceAs (Decidable (_ ≤ _))

/-- The consumption walk of `consumeLots`: greedily consume sorted lots until the
requested amount is exhausted.  Returns the consumed snapshots (index-tagged,
with `amount` the consumed quantity) and the outstanding remainder. -/
def consumeWalk : ℚ → List (ℕ × TaxLot) → List (ℕ × TaxLot) × ℚ
  | remaining, [] => ([], remaining)
  | remaining, (i, lot) :: rest =>
      if remaining ≤ 0 then ([], remaining)
      else if lot.amount ≤ remaining then
        let r := consumeWalk (remaining - lot.amount) rest
        ((i, lot) :: r.1, r.2)
      else
        ([(i, { lot with amount := remaining })], 0)

/-- Total amount the walk consumed from the lot at position `i`. -/
def consumedAt (consumed : List (ℕ × TaxLot)) (i : ℕ) : ℚ :=
  ((consumed.filter (fun c => c.1 == i)).map (fun c => c.2.amount)).sum

/-- Mutation of the underlying array: each lot's remaining amount drops by what
the walk consumed from it. -/
def applyConsumption (entry : List TaxLot) (consumed : List (ℕ × TaxLot)) :
    List TaxLot :=
  entry.enum.map (fun p => { p.2 with amount := p.2.amount - consumedAt consumed p.1 })

/-- `consumeLots(wallet, asset, amount, method)`.  `none` models the thrown
`Insufficient lots` error; the returned pool is the observable post-call state
(on the insufficiency throw the walked lots keep their zeroed amounts and are
not garbage collected, because the source mutates before it checks). -/
def consumeLots (p : WalletLotPool) (wallet asset : String) (amount : ℚ)
    (method : CostBasisMethod) : WalletLotPool × Option (List TaxLot) :=
  let lots := getLots p wallet asset
  if lots.isEmpty then (p, none)
  else
    let sorted := List.insertionSort (methodRel method) lots.enum
    let walked := consumeWalk amount sorted
    let updated := applyConsumption lots walked.1
    if 0 < walked.2 then
      (setLots p wallet asset updated, none)
    else
      (setLots p wallet asset (updated.filter (fun l => 0 < l.amount)),
       some (walked.1.map (·.2)))

/-- `transferLots(from, to, asset, amount)`: FIFO-consume at the source wallet,
re-add each snapshot at the destination with a fresh id.  The `Bool` is `false`
when the underlying consume threw. -/
def transferLots (p : WalletLotPool) (fromWallet toWallet : String) (asset : String)
    (amount : ℚ) : WalletLotPool × Bool :=
  let p1 := { p with transferCount := p.transferCount + 1 }
  match consumeLots p1 fromWallet asset amount .FIFO with
  | (p2, none) => (p2, false)
  | (p2, some consumed) =>
      (consumed.foldl (fun acc lot =>
        let g := generateLotId acc
        addLot g.2 { lot with id := g.1, wallet := toWallet }) p2, true)

/-- `getAllRemainingLots()`: all lots with positive remaining amount, in map
iteration order. -/
def getAllRemainingLots (p : WalletLotPool) : List TaxLot :=
  p.pools.flatMap (fun w => w.2.flatMap (fun a => a.2.filter (fun l => 0 < l.amount)))

/-! ### engine/disposal-engine.ts -/

/-- `processDisposal`: consume, then emit one result per consumed snapshot with
a proportional share of the proceeds.  `none` propagates the consume throw. -/
def processDisposal (p : WalletLotPool) (wallet asset : String)
    (amount proceeds : ℚ) (disposalDate : ℤ) (disposalType : TransactionType)
    (method : CostBasisMethod) : WalletLotPool × Option (List DisposalResult) :=
  match consumeLots p wallet asset amount method with
  | (p1, none) => (p1, none)
  | (p1, some consumedLots) =>
      let totalConsumed := (consumedLots.map (·.amount)).sum
      (p1, some (consumedLots.map (fun lot =>
        let lotProceeds := proceeds * (lot.amount / totalConsumed)
        let costBasis := lot.amount * lot.costBasisPerUnit
        { asset := asset
          amount := lot.amount
          disposalDate := disposalDate
          disposalType := disposalType
          proceeds := lotProceeds
          costBasis := costBasis
          gainOrLoss := lotProceeds - costBasis
          isLongTerm := isLongTerm lot.acquisitionDate disposalDate
          holdingDays := getHoldingDays lot.acquisitionDate disposalDate
          acquisitionDate := lot.acquisitionDate
          lotId := lot.id })))

/-! ### engine/income-classifier.ts -/

/-- `classifyIncome(tx)`: income-kind transactions carrying a received asset,
amount and unit price become income events with `FMV = amount * price`.
JavaScript truthiness: a present `Decimal` is always truthy, a present empty
string is falsy, so an empty received asset rejects the row. -/
def classifyIncome (tx : Transaction) : Option IncomeEvent :=
  if tx.type ∈ INCOME_TYPES then
    match tx.receivedAmount, tx.receivedAssetPriceUsd, tx.receivedAsset with
    | some amount, some priceUsd, some asset =>
        if asset = "" then none
        else some { date := tx.dateTime, type := tx.type, asset := asset,
                    amount := amount, fairMarketValueUsd := amount * priceUsd,
                    wallet := tx.wallet }
    | _, _, _ => none
  else none

/-- `createIncomeLot(event, lotId)`: a lot whose basis per unit is `FMV / amount`. -/
def createIncomeLot (event : IncomeEvent) (lotId : ℕ) : TaxLot :=
  { id := lotId
    asset := event.asset
    amount := event.amount
    originalAmount := event.amount
    costBasisPerUnit := event.fairMarketValueUsd / event.amount
    acquisitionDate := event.date
    acquisitionType := event.type
    wallet := event.wallet }

/-! ### engine/types.ts — sortTransactions and calculateTaxes -/

/-- Tie-break flag of `sortTransactions`: 0 for kinds in
`ACQUISITION_TYPES ∪ INCOME_TYPES ∪ \x7bRECEIVE\x7d`, 1 otherwise. -/
def acqFlag (t : TransactionType) : ℕ :=
  if t ∈ ACQUISITION_TYPES ∨ t ∈ INCOME_TYPES ∨ t = .RECEIVE then 0 else 1

/-- The total preorder realised by the `sortTransactions` comparator:
`a ≼ b` iff the comparator returns `≤ 0`. -/
def txRel (a b : Transaction) : Prop :=
  a.dateTime < b.dateTime ∨ (a.dateTime = b.dateTime ∧ acqFlag a.type ≤ acqFlag b.type)

instance : DecidableRel txRel := fun a b =>
  inferInstanceAs (Decidable (a.dateTime < b.dateTime ∨
    (a.dateTime = b.dateTime ∧ acqFlag a.type ≤ acqFlag b.type)))

/-- `sortTransactions`: the stable sort by the comparator above. -/
def sortTransactions (txs : List Transaction) : List Transaction :=
  List.insertionSort txRel txs

/-- A caught per-transaction calculator error, annotated with the transaction's
kind and timestamp as in the source error message. -/
structure CalcError where
  txType : TransactionType
  time : ℤ
deriving DecidableEq, Repr

/-- The calculator's "could not account for the transfer fee" warning. -/
structure CalcWarning where
  feeAmount : ℚ
  asset : String
  wallet : String
deriving DecidableEq, Repr

/-- Accumulator state of the `calculateTaxes` replay loop. -/
structure CalcState where
  pool : WalletLotPool
  disposals : List DisposalResult
  incomeEvents : List IncomeEvent
  errors : List CalcError
  warnings : List CalcWarning
deriving Repr

/-- State at loop entry. -/
def calcInit : CalcState :=
  { pool := emptyPool, disposals := [], incomeEvents := [], errors := [], warnings := [] }

/-- Shorthand for the caught-exception branch of the replay loop. -/
def recordError (st : CalcState) (tx : Transaction) (pool : WalletLotPool) : CalcState :=
  { st with pool := pool, errors := st.errors ++ [{ txType := tx.type, time := tx.dateTime }] }

/-- One iteration of the `calculateTaxes` switch, faithful to the branch
structure of the source including the per-transaction try/catch. -/
def calcStep (method : CostBasisMethod) (st : CalcState) (tx : Transaction) : CalcState :=
  match tx.type with
  | .BUY | .GIFT_RECEIVED =>
      match tx.receivedAsset, tx.receivedAmount with
      | some asset, some amount =>
          let g := generateLotId st.pool
          { st with pool := addLot g.2 {
              id := g.1, asset := asset, amount := amount, originalAmount := amount,
                costBasisPerUnit := tx.receivedAssetPriceUsd.getD 0,
                acquisitionDate := tx.dateTime, acquisitionType := tx.type,
                wallet := tx.wallet } }
      | _, _ => recordError st tx st.pool
  | .RECEIVE =>
      match tx.receivedAsset, tx.receivedAmount with
      | some asset, some amount =>
          let g := generateLotId st.pool
          { st with pool := addLot g.2 {
              id := g.1, asset := asset, amount := amount, originalAmount := amount,
                costBasisPerUnit := tx.receivedAssetPriceUsd.getD 0,
                acquisitionDate := tx.dateTime, acquisitionType := tx.type,
                wallet := tx.wallet } }
      | _, _ => recordError st tx st.pool
  | .MINING | .STAKING | .AIRDROP | .FORK | .INCOME =>
      match classifyIncome tx with
      | some ev =>
          let g := generateLotId st.pool
          { st with incomeEvents := st.incomeEvents ++ [ev],
                    pool := addLot g.2 (createIncomeLot ev g.1) }
      | none => st
  | .SELL | .SPEND =>
      match tx.sentAsset, tx.sentAmount with
      | some asset, some amount =>
          let proceeds := amount * (tx.sentAssetPriceUsd.getD 0)
          match processDisposal st.pool tx.wallet asset amount proceeds
              tx.dateTime tx.type method with
          | (p, some results) =>
              { st with pool := p, disposals := st.disposals ++ results }
          | (p, none) => recordError st tx p
      | _, _ => recordError st tx st.pool
  | .TRADE =>
      match tx.sentAsset, tx.sentAmount with
      | some sentAsset, some sentAmount =>
          let proceeds := sentAmount * (tx.sentAssetPriceUsd.getD 0)
          match processDisposal st.pool tx.wallet sentAsset sentAmount proceeds
              tx.dateTime tx.type method with
          | (p, none) => recordError st tx p
          | (p, some results) =>
              match tx.receivedAsset, tx.receivedAmount with
              | some recvAsset, some recvAmount =>
                  let g := generateLotId p
                  { st with disposals := st.disposals ++ results,
                            pool := addLot g.2 {
                      id := g.1, asset := recvAsset, amount := recvAmount,
                        originalAmount := recvAmount,
                        costBasisPerUnit := tx.receivedAssetPriceUsd.getD 0,
                        acquisitionDate := tx.dateTime, acquisitionType := tx.type,
                        wallet := tx.wallet } }
              | _, _ =>
                  { st with pool := p, disposals := st.disposals ++ results,
                            errors := st.errors ++ [{ txType := tx.type, time := tx.dateTime }] }
      | _, _ => recordError st tx st.pool
  | .SEND =>
      match tx.sentAsset, tx.sentAmount with
      | some asset, some amount =>
          match consumeLots st.pool tx.wallet asset amount .FIFO with
          | (p, none) => recordError st tx p
          | (p, some _) =>
              match tx.feeAmount, tx.feeAsset with
              | some feeAmount, some feeAsset =>
                  if feeAsset ≠ "" ∧ feeAsset = asset then
                    if 0 < feeAmount then
                      match processDisposal p tx.wallet asset feeAmount
                          (tx.feeUsd.getD 0) tx.dateTime .SPEND method with
                      | (p2, some feeResults) =>
                          { st with pool := p2, disposals := st.disposals ++ feeResults }
                      | (p2, none) =>
                          { st with pool := p2, warnings := st.warnings ++
                              [{ feeAmount := feeAmount, asset := asset, wallet := tx.wallet }] }
                    else { st with pool := p }
                  else { st with pool := p }
              | _, _ => { st with pool := p }
      | _, _ => recordError st tx st.pool
  | .GIFT_SENT =>
      match tx.sentAsset, tx.sentAmount with
      | some asset, some amount =>
          match processDisposal st.pool tx.wallet asset amount 0
              tx.dateTime tx.type method with
          | (p, some results) =>
              { st with pool := p, disposals := st.disposals ++ results }
          | (p, none) => recordError st tx p
      | _, _ => recordError st tx st.pool

/-- The replay loop: sort, then fold the switch over the transactions. -/
def calcFinalState (txs : List Transaction) (method : CostBasisMethod) : CalcState :=
  (sortTransactions txs).foldl (calcStep method) calcInit

/-- Result record of `calculateTaxes`. -/
structure CalculationResult where
  disposals : List DisposalResult
  incomeEvents : List IncomeEvent
  remainingLots : List TaxLot
  errors : List CalcError
  warnings : List CalcWarning
deriving Repr

/-- `calculateTaxes(transactions, method)`. -/
def calculateTaxes (txs : List Transaction) (method : CostBasisMethod) :
    CalculationResult :=
  let st := calcFinalState txs method
  { disposals := st.disposals, incomeEvents := st.incomeEvents,
    remainingLots := getAllRemainingLots st.pool,
    errors := st.errors, warnings := st.warnings }

/-! ### Calendar arithmetic for `Date.prototype.getFullYear`

The civil-calendar year of a day count since 1970-01-01 (Howard Hinnant's
`civil_from_days`, restricted to the year component), with floor division. -/

/-- The Gregorian year containing day `z`, where day 0 is 1970-01-01 (UTC). -/
def yearOfEpochDay (z : ℤ) : ℤ :=
  let days := z + 719468
  let era := Int.fdiv days 146097
  let doe := days - era * 146097
  let yoe := Int.fdiv (doe - Int.fdiv doe 1460 + Int.fdiv doe 36524 - Int.fdiv doe 146096) 365
  let y := yoe + era * 400
  let doy := doe - (365 * yoe + Int.fdiv yoe 4 - Int.fdiv yoe 100)
  let mp := Int.fdiv (5 * doy + 2) 153
  let m := if mp < 10 then mp + 3 else mp - 9
  if m ≤ 2 then y + 1 else y

/-- UTC calendar year of an epoch-millisecond instant. -/
def utcYearOfMs (t : ℤ) : ℤ := yearOfEpochDay (Int.fdiv t msPerDay)

/-- `getFullYear()` on a host whose fixed UTC offset is `tz` minutes: the local
calendar year of the instant. -/
def localYearOfMs (tz t : ℤ) : ℤ := utcYearOfMs (t + tz * 60000)

/-! ### engine/report-generator.ts -/

/-- A Form 8949 row.  The source renders `description` as a formatted string
"amount asset"; the underlying data is kept unformatted here. -/
structure Form8949Row where
  amount : ℚ
  asset : String
  dateAcquired : ℤ
  dateSold : ℤ
  proceeds : ℚ
  costBasis : ℚ
  gainOrLoss : ℚ
  isLongTerm : Bool
  holdingDays : ℤ
deriving DecidableEq, Repr

/-- Schedule D summary (`ScheduleDSummary`). -/
structure ScheduleDSummary where
  shortTermGains : ℚ
  shortTermLosses : ℚ
  longTermGains : ℚ
  longTermLosses : ℚ
  netShortTerm : ℚ
  netLongTerm : ℚ
  totalNetGainOrLoss : ℚ
deriving DecidableEq, Repr

/-- `disposalToForm8949Row`. -/
def disposalToForm8949Row (d : DisposalResult) : Form8949Row :=
  { amount := d.amount, asset := d.asset, dateAcquired := d.acquisitionDate,
    dateSold := d.disposalDate, proceeds := d.proceeds, costBasis := d.costBasis,
    gainOrLoss := d.gainOrLoss, isLongTerm := d.isLongTerm,
    holdingDays := d.holdingDays }

/-- `generateForm8949`. -/
def generateForm8949 (disposals : List DisposalResult) : List Form8949Row :=
  disposals.map disposalToForm8949Row

/-- `generateScheduleD`: bucket each row by term and by the sign of its gain. -/
def generateScheduleD (rows : List Form8949Row) : ScheduleDSummary :=
  let acc := rows.foldl (fun (a : ℚ × ℚ × ℚ × ℚ) row =>
    if row.isLongTerm then
      if 0 ≤ row.gainOrLoss then (a.1, a.2.1, a.2.2.1 + row.gainOrLoss, a.2.2.2)
      else (a.1, a.2.1, a.2.2.1, a.2.2.2 + row.gainOrLoss)
    else
      if 0 ≤ row.gainOrLoss then (a.1 + row.gainOrLoss, a.2.1, a.2.2.1, a.2.2.2)
      else (a.1, a.2.1 + row.gainOrLoss, a.2.2.1, a.2.2.2)) (0, 0, 0, 0)
  { shortTermGains := acc.1
    shortTermLosses := acc.2.1
    longTermGains := acc.2.2.1
    longTermLosses := acc.2.2.2
    netShortTerm := acc.1 + acc.2.1
    netLongTerm := acc.2.2.1 + acc.2.2.2
    totalNetGainOrLoss := acc.1 + acc.2.1 + (acc.2.2.1 + acc.2.2.2) }

/-- The full tax report (`TaxReport`). -/
structure TaxReport where
  taxYear : ℤ
  costBasisMethod : CostBasisMethod
  disposals : List DisposalResult
  incomeEvents : List IncomeEvent
  remainingLots : List TaxLot
  form8949Rows : List Form8949Row
  scheduleDSummary : ScheduleDSummary
  errors : List CalcError
  warnings : List CalcWarning
deriving Repr

/-- `generateReport(...)`, parameterised by the host's UTC offset `tz` in
minutes, through which `disposalDate.getFullYear()` and `date.getFullYear()`
are evaluated. -/
def generateReport (tz : ℤ) (disposals : List DisposalResult)
    (incomeEvents : List IncomeEvent) (remainingLots : List TaxLot)
    (taxYear : ℤ) (costBasisMethod : CostBasisMethod)
    (errors : List CalcError) (warnings : List CalcWarning) : TaxReport :=
  let yearDisposals := disposals.filter (fun d => localYearOfMs tz d.disposalDate = taxYear)
  let yearIncome := incomeEvents.filter (fun e => localYearOfMs tz e.date = taxYear)
  let form8949Rows := generateForm8949 yearDisposals
  { taxYear := taxYear
    costBasisMethod := costBasisMethod
    disposals := yearDisposals
    incomeEvents := yearIncome
    remainingLots := remainingLots
    form8949Rows := form8949Rows
    scheduleDSummary := generateScheduleD form8949Rows
    errors := errors
    warnings := warnings }

/-! ### Character-level text primitives

JavaScript string operations (`trim`, `toUpperCase`, `split`) are modelled at
the character-list level with ASCII whitespace — the claims never exercise
exotic Unicode whitespace — so that they both evaluate by reduction and admit
structural induction. -/

/-- ASCII whitespace, the fragment of JavaScript `trim` the claims exercise. -/
def isWS (c : Char) : Bool :=
  c = ' ' ∨ c = '\t' ∨ c = '\n' ∨ c = '\r'

/-- Left trim. -/
def trimL (l : List Char) : List Char := l.dropWhile isWS

/-- Right trim. -/
def trimR (l : List Char) : List Char := (l.reverse.dropWhile isWS).reverse

/-- Both-ends trim (`String.prototype.trim`). -/
def trimC (l : List Char) : List Char := trimL (trimR l)

/-- Split on a separator character; always returns at least one component. -/
def splitOnC (sep : Char) : List Char → List (List Char)
  | [] => [[]]
  | c :: cs =>
      if c = sep then [] :: splitOnC sep cs
      else
        match splitOnC sep cs with
        | [] => [[c]]
        | h :: t => (c :: h) :: t

/-- Rewrite the last component of a list of lines; the shape in which a
character appended to a text surfaces after splitting on a separator. -/
def mapLast (f : List Char → List Char) : List (List Char) → List (List Char)
  | [] => []
  | [x] => [f x]
  | x :: y :: ys => x :: mapLast f (y :: ys)

/-- `String.prototype.trim`, via the character-level trim. -/
def strTrim (s : String) : String := ⟨trimC s.data⟩

/-- `String.prototype.toUpperCase` (ASCII). -/
def strUpper (s : String) : String := ⟨s.data.map Char.toUpper⟩

/-! ### engine/csv-parser.ts — per-row validation

The CSV cell lexing boundary: a numeric cell is abstracted by what `isBlank`
and `toDecimalOrNull` observe of it — blank, non-blank but unparseable, or a
parsed decimal; the date cell by what `new Date` and `hasTimezoneInfo` observe;
the type cell by whether its upper-cased trim names a transaction kind.  String
cells stay raw strings (blankness is `trim = ""`). -/

/-- A numeric CSV cell as seen through `isBlank` / `toDecimalOrNull`. -/
inductive NumCell where
  | blank
  | malformed
  | num (q : ℚ)
deriving DecidableEq, Repr

/-- The `date_time` cell as seen through `isBlank`, `new Date` and
`hasTimezoneInfo`. -/
inductive DateCell where
  | blank
  | invalid
  | valid (t : ℤ) (hasTz : Bool)
deriving DecidableEq, Repr

/-- The `transaction_type` cell as seen through `isBlank` and the
upper-cased membership test in `VALID_TRANSACTION_TYPES`. -/
inductive TypeCell where
  | blank
  | unknown
  | valid (t : TransactionType)
deriving DecidableEq, Repr

/-- The six numeric columns of the native schema. -/
inductive NumFieldName where
  | sent_amount
  | sent_asset_price_usd
  | received_amount
  | received_asset_price_usd
  | fee_amount
  | fee_usd
deriving DecidableEq, Repr

/-- One data row of the native CSV, after cell lexing. -/
structure CsvRow where
  date_time : DateCell
  transaction_type : TypeCell
  sent_asset : String
  sent_amount : NumCell
  sent_asset_price_usd : NumCell
  received_asset : String
  received_amount : NumCell
  received_asset_price_usd : NumCell
  fee_amount : NumCell
  fee_asset : String
  fee_usd : NumCell
  wallet_or_exchange : String
  tx_hash : String
  notes : String
deriving DecidableEq, Repr

/-- Numeric cell content of a row by field name. -/
def CsvRow.numCell (row : CsvRow) : NumFieldName → NumCell
  | .sent_amount => row.sent_amount
  | .sent_asset_price_usd => row.sent_asset_price_usd
  | .received_amount => row.received_amount
  | .received_asset_price_usd => row.received_asset_price_usd
  | .fee_amount => row.fee_amount
  | .fee_usd => row.fee_usd

/-- Row-level validation errors, tagged by their source check. -/
inductive RowError where
  | missingDateTime
  | invalidDate
  | missingType
  | unknownType
  | missingWallet
  | nonPositive (f : NumFieldName)
  | invalidNumber (f : NumFieldName)
  | missingSentAsset
  | missingSentAmount
  | missingRecvAsset
  | missingRecvAmount
  | missingRecvPrice
deriving DecidableEq, Repr

/-- Row-level warnings. -/
inductive RowWarning where
  | missingTimezone
deriving DecidableEq, Repr

/-- `toDecimalOrNull`: the parsed value of a numeric cell, `none` when blank or
unparseable. -/
def NumCell.toDec : NumCell → Option ℚ
  | .blank => none
  | .malformed => none
  | .num q => some q

/-- The `value !== null && value.lte(0)` positivity check applied to one of the
four amount fields. -/
def posErr (f : NumFieldName) (c : NumCell) : List RowError :=
  match c with
  | .num q => if q ≤ 0 then [.nonPositive f] else []
  | _ => []

/-- The `!isBlank(raw) && parsed === null` check applied to `sent_amount` and
`received_amount`. -/
def parseErr (f : NumFieldName) (c : NumCell) : List RowError :=
  match c with
  | .malformed => [.invalidNumber f]
  | _ => []

/-- Result of validating one row. -/
structure RowResult where
  errors : List RowError
  warnings : List RowWarning
  tx : Option Transaction
deriving Repr

/-- An optional string field of a built transaction: present iff its trim is
non-empty. -/
def optStr (s : String) : Option String :=
  if strTrim s = "" then none else some (strTrim s)

/-- The per-row body of the `parseCsv` loop, with the same checks in the same
order. -/
def parseRow (row : CsvRow) : RowResult :=
  let dateErrs : List RowError :=
    match row.date_time with
    | .blank => [.missingDateTime]
    | .invalid => [.invalidDate]
    | .valid _ _ => []
  let dateWarns : List RowWarning :=
    match row.date_time with
    | .valid _ false => [.missingTimezone]
    | _ => []
  let typeErrs : List RowError :=
    match row.transaction_type with
    | .blank => [.missingType]
    | .unknown => [.unknownType]
    | .valid _ => []
  let walletErrs : List RowError :=
    if strTrim row.wallet_or_exchange = "" then [.missingWallet] else []
  let amountErrs : List RowError :=
    posErr .sent_amount row.sent_amount ++ posErr .received_amount row.received_amount ++
    posErr .fee_amount row.fee_amount ++ posErr .fee_usd row.fee_usd
  let numParseErrs : List RowError :=
    parseErr .sent_amount row.sent_amount ++ parseErr .received_amount row.received_amount
  let typeSpecificErrs : List RowError :=
    match row.transaction_type with
    | .valid t =>
        (if t = .SELL ∨ t = .SPEND ∨ t = .SEND ∨ t = .GIFT_SENT then
          (if strTrim row.sent_asset = "" then [.missingSentAsset] else []) ++
          (if row.sent_amount.toDec = none then [.missingSentAmount] else [])
        else []) ++
        (if t = .BUY ∨ t = .RECEIVE ∨ t = .GIFT_RECEIVED then
          (if strTrim row.received_asset = "" then [.missingRecvAsset] else []) ++
          (if row.received_amount.toDec = none then [.missingRecvAmount] else [])
        else []) ++
        (if t = .TRADE then
          (if strTrim row.sent_asset = "" then [.missingSentAsset] else []) ++
          (if row.sent_amount.toDec = none then [.missingSentAmount] else []) ++
          (if strTrim row.received_asset = "" then [.missingRecvAsset] else []) ++
          (if row.received_amount.toDec = none then [.missingRecvAmount] else [])
        else []) ++
        (if t ∈ INCOME_TYPES then
          (if strTrim row.received_asset = "" then [.missingRecvAsset] else []) ++
          (if row.received_amount.toDec = none then [.missingRecvAmount] else []) ++
          (if row.received_asset_price_usd.toDec = none then [.missingRecvPrice] else [])
        else [])
    | _ => []
  let rowErrors := dateErrs ++ typeErrs ++ walletErrs ++ amountErrs ++
    numParseErrs ++ typeSpecificErrs
  let tx : Option Transaction :=
    if rowErrors = [] then
      match row.date_time, row.transaction_type with
      | .valid t _, .valid ty =>
          some { dateTime := t
                 type := ty
                 sentAsset := optStr row.sent_asset
                 sentAmount := row.sent_amount.toDec
                 sentAssetPriceUsd := row.sent_asset_price_usd.toDec
                 receivedAsset := optStr row.received_asset
                 receivedAmount := row.received_amount.toDec
                 receivedAssetPriceUsd := row.received_asset_price_usd.toDec
                 feeAmount := row.fee_amount.toDec
                 feeAsset := optStr row.fee_asset
                 feeUsd := row.fee_usd.toDec
                 wallet := strTrim row.wallet_or_exchange
                 txHash := optStr row.tx_hash
                 notes := optStr row.notes }
      | _, _ => none
    else none
  { errors := rowErrors, warnings := dateWarns, tx := tx }

/-! ### engine/price-lookup.ts — `enrichPrices`, oracle-call phase

Only the columns the ticker-collection phase reads are modelled; a leg "needs a
price" when its asset is non-blank and not `USD` (case-insensitively), its
amount is non-blank, and its unit price is blank. -/

/-- The cells of one normalized row that `enrichPrices` inspects. -/
structure EnrichRow where
  date_time : String
  sent_asset : String
  sent_amount : String
  sent_asset_price_usd : String
  received_asset : String
  received_amount : String
  received_asset_price_usd : String
deriving DecidableEq, Repr

/-- Insertion into a JavaScript `Set` modelled on an insertion-ordered list. -/
def insertUniq (l : List String) (s : String) : List String :=
  if s ∈ l then l else l ++ [s]

/-- The ticker the received leg of a row adds to `tickersNeeded`, if any. -/
def rowTickerRecv (row : EnrichRow) : Option String :=
  if strTrim row.received_asset ≠ "" ∧ strUpper (strTrim row.received_asset) ≠ "USD" ∧
      strTrim row.received_amount ≠ "" ∧ strTrim row.received_asset_price_usd = "" then
    some (strUpper (strTrim row.received_asset))
  else none

/-- The ticker the sent leg of a row adds to `tickersNeeded`, if any. -/
def rowTickerSent (row : EnrichRow) : Option String :=
  if strTrim row.sent_asset ≠ "" ∧ strUpper (strTrim row.sent_asset) ≠ "USD" ∧
      strTrim row.sent_amount ≠ "" ∧ strTrim row.sent_asset_price_usd = "" then
    some (strUpper (strTrim row.sent_asset))
  else none

/-- One row's contribution to `tickersNeeded`: the received leg is examined
first, then the sent leg, mirroring the statement order in `enrichPrices`. -/
def tickerStep (acc : List String) (row : EnrichRow) : List String :=
  let acc1 := match rowTickerRecv row with
    | some t => insertUniq acc t
    | none => acc
  match rowTickerSent row with
  | some t => insertUniq acc1 t
  | none => acc1

/-- The `tickersNeeded` set in iteration order. -/
def collectTickers (rows : List EnrichRow) : List String :=
  rows.foldl tickerStep []

/-- The sequence of tickers `enrichPrices` passes to `fetchDailyPrices`, one
call per element (the fetch loop iterates the set once). -/
def oracleCalls (rows : List EnrichRow) : List String :=
  collectTickers rows

/-- A leg of `row` that has a blank unit price and a non-USD currency, with
ticker `t` — the claim-level condition for "a leg needs a price". -/
def legNeedsPrice (row : EnrichRow) (t : String) : Prop :=
  (strTrim row.received_asset_price_usd = "" ∧
    strUpper (strTrim row.received_asset) ≠ "USD" ∧
    strUpper (strTrim row.received_asset) = t) ∨
  (strTrim row.sent_asset_price_usd = "" ∧
    strUpper (strTrim row.sent_asset) ≠ "USD" ∧
    strUpper (strTrim row.sent_asset) = t)

/-! ### engine/csv-format-detector.ts

The detector works on the character-list form of the input.  `split(/\r?\n/)`
is modelled as splitting on `'\n'`: a line's trailing `'\r'` is removed by the
per-header trim, and the first-line blankness guard trims as well, so the two
readings agree everywhere they are consumed. -/

/-- The required native headers (`NATIVE_REQUIRED_HEADERS`). -/
def nativeRequiredHeaders : List (List Char) :=
  ["date_time".toList, "transaction_type".toList, "wallet_or_exchange".toList]

/-- The required CoinTracker headers (`COINTRACKER_REQUIRED_HEADERS`). -/
def cointrackerRequiredHeaders : List (List Char) :=
  ["Date".toList, "Type".toList, "Received Quantity".toList,
   "Received Currency".toList, "Received Cost Basis (USD)".toList,
   "Sent Quantity".toList, "Sent Currency".toList]

/-- Detector verdicts. -/
inductive CsvFormat where
  | native
  | cointracker
  | unknown
deriving DecidableEq, Repr

/-- Split a header line on commas and trim each cell. -/
def headerCells (line : List Char) : List (List Char) :=
  (splitOnC ',' line).map trimC

/-- Superset test against a required header list (`every`/`Set.has`). -/
def containsAll (headers : List (List Char)) (req : List (List Char)) : Bool :=
  req.all (fun h => headers.contains h)

/-- `detectCsvFormat(csvContent)`. -/
def detectCsvFormat (csv : List Char) : CsvFormat :=
  let firstLine := (splitOnC '\n' (trimC csv)).headD []
  if trimC firstLine = [] then .unknown
  else
    let headers := headerCells firstLine
    if containsAll headers nativeRequiredHeaders then .native
    else if containsAll headers cointrackerRequiredHeaders then .cointracker
    else .unknown

/-- Modelled from the spec: the first non-blank line of the input, the line the
claim's header-set is built from. -/
def firstNonBlankLine : List (List Char) → List Char
  | [] => []
  | l :: rest => if trimC l = [] then firstNonBlankLine rest else l

/-- Modelled from the spec: the claim's header set — split the first non-blank
line on commas and trim each header. -/
def specHeaderCells (csv : List Char) : List (List Char) :=
  headerCells (firstNonBlankLine (splitOnC '\n' csv))

/-- Modelled from the spec: the detection cascade of the claim, phrased
directly over `specHeaderCells`. -/
def detectSpec (csv : List Char) : CsvFormat :=
  let headers := specHeaderCells csv
  if containsAll headers nativeRequiredHeaders then .native
  else if containsAll headers cointrackerRequiredHeaders then .cointracker
  else .unknown

/-! ### Concrete instances used by counterexamples and witnesses -/

/-- A single enrichment row whose received leg needs a price. -/
def c8Row : EnrichRow :=
  { date_time := "2024-01-01", sent_asset := "", sent_amount := "",
    sent_asset_price_usd := "", received_asset := "BTC", received_amount := "1",
    received_asset_price_usd := "" }

/-- A pool holding a single half-unit BTC lot, mirroring the "insufficient
lots" test fixture. -/
def c1Lot : TaxLot :=
  { id := 1, asset := "BTC", amount := 1/2, originalAmount := 1/2,
    costBasisPerUnit := 30000, acquisitionDate := 0, acquisitionType := .BUY,
    wallet := "coinbase" }

/-- The pool for the C1 counterexample. -/
def c1Pool : WalletLotPool := addLot emptyPool c1Lot

/-- Pool for the C6 witness: one whole BTC lot acquired at the epoch. -/
def c6Pool : WalletLotPool :=
  addLot emptyPool
    { id := 1, asset := "BTC", amount := 1, originalAmount := 1,
      costBasisPerUnit := 30000, acquisitionDate := 0, acquisitionType := .BUY,
      wallet := "w" }

/-- The single disposal result of the C6 witness: 366 days held, long-term. -/
def c6Result : DisposalResult :=
  { asset := "BTC", amount := 1, disposalDate := 31622400000, disposalType := .SELL,
    proceeds := 50000, costBasis := 30000, gainOrLoss := 20000, isLongTerm := true,
    holdingDays := 366, acquisitionDate := 0, lotId := 1 }

/-- Pool for the C2 witness: two BTC lots with different bases. -/
def c2Pool : WalletLotPool :=
  addLot (addLot emptyPool
    { id := 1, asset := "BTC", amount := 1, originalAmount := 1,
      costBasisPerUnit := 30000, acquisitionDate := 0, acquisitionType := .BUY,
      wallet := "w" })
    { id := 2, asset := "BTC", amount := 1, originalAmount := 1,
      costBasisPerUnit := 40000, acquisitionDate := 86400000, acquisitionType := .BUY,
      wallet := "w" }

/-- Total cost basis the consumption walk charges on a request. -/
def walkBasis (rem : ℚ) (l : List (ℕ × TaxLot)) : ℚ :=
  (((consumeWalk rem l).1).map (fun c => c.2.amount * c.2.costBasisPerUnit)).sum

/-- A pool whose single `(wallet, asset)` entry is the given lot list. -/
def entryPool (wallet asset : String) (lots : List TaxLot) : WalletLotPool :=
  { pools := [(wallet, [(asset, lots)])], nextLotId := 1, transferCount := 0 }

/-- Total realized gain of one disposal against the given lots under a method
(`0` when the disposal fails). -/
def methodGain (wallet asset : String) (lots : List TaxLot) (amount proceeds : ℚ)
    (date : ℤ) (dtype : TransactionType) (m : CostBasisMethod) : ℚ :=
  (((processDisposal (entryPool wallet asset lots) wallet asset amount proceeds date
      dtype m).2.getD []).map (·.gainOrLoss)).sum

/-- Two one-unit lots with differing bases, for the C7 witness. -/
def c7Lots : List TaxLot :=
  [{ id := 1, asset := "BTC", amount := 1, originalAmount := 1,
     costBasisPerUnit := 30000, acquisitionDate := 0, acquisitionType := .BUY,
     wallet := "w" },
   { id := 2, asset := "BTC", amount := 1, originalAmount := 1,
     costBasisPerUnit := 40000, acquisitionDate := 86400000, acquisitionType := .BUY,
     wallet := "w" }]

/-- A disposal at 2025-01-01T02:00Z (UTC year 2025) with trivial money fields,
for the C4 counterexample. -/
def c4Disposal : DisposalResult :=
  { asset := "BTC", amount := 1, disposalDate := 1735696800000, disposalType := .SELL,
    proceeds := 0, costBasis := 0, gainOrLoss := 0, isLongTerm := false,
    holdingDays := 0, acquisitionDate := 0, lotId := 1 }

/-- A SELL transaction of `a` units of `A` at unit price `q` in wallet `w`. -/
def sellTx (t : ℤ) (w A : String) (a q : ℚ) : Transaction :=
  { dateTime := t, type := .SELL, sentAsset := some A, sentAmount := some a,
    sentAssetPriceUsd := some q, receivedAsset := none, receivedAmount := none,
    receivedAssetPriceUsd := none, feeAmount := none, feeAsset := none,
    feeUsd := none, wallet := w, txHash := none, notes := none }

/-- A BUY transaction of `a` units of `A` at unit price `p` in wallet `w`. -/
def buyTx (t : ℤ) (w A : String) (a p : ℚ) : Transaction :=
  { dateTime := t, type := .BUY, sentAsset := none, sentAmount := none,
    sentAssetPriceUsd := none, receivedAsset := some A, receivedAmount := some a,
    receivedAssetPriceUsd := some p, feeAmount := none, feeAsset := none,
    feeUsd := none, wallet := w, txHash := none, notes := none }

/-- A SEND transaction of `a` units of `A` out of wallet `w`, no fee. -/
def sendTx (t : ℤ) (w A : String) (a : ℚ) : Transaction :=
  { dateTime := t, type := .SEND, sentAsset := some A, sentAmount := some a,
    sentAssetPriceUsd := none, receivedAsset := none, receivedAmount := none,
    receivedAssetPriceUsd := none, feeAmount := none, feeAsset := none,
    feeUsd := none, wallet := w, txHash := none, notes := none }

/-- A RECEIVE transaction of `a` units of `A` into wallet `w` at unit price `p`. -/
def recvTx (t : ℤ) (w A : String) (a p : ℚ) : Transaction :=
  { dateTime := t, type := .RECEIVE, sentAsset := none, sentAmount := none,
    sentAssetPriceUsd := none, receivedAsset := some A, receivedAmount := some a,
    receivedAssetPriceUsd := some p, feeAmount := none, feeAsset := none,
    feeUsd := none, wallet := w, txHash := none, notes := none }

/-- A valid BUY row whose sent-asset unit price is the negative number −5,
for the C3 counterexample. -/
def c3Row : CsvRow :=
  { date_time := .valid 0 true, transaction_type := .valid .BUY,
    sent_asset := "", sent_amount := .blank, sent_asset_price_usd := .num (-5),
    received_asset := "BTC", received_amount := .num 1,
    received_asset_price_usd := .num 30000, fee_amount := .blank, fee_asset := "",
    fee_usd := .blank, wallet_or_exchange := "w", tx_hash := "", notes := "" }

/-! ## Verification -/

/-! ### Consumption-walk lemmas -/

theorem consumeWalk_nil (rem : ℚ) : consumeWalk rem [] = ([], rem) := rfl

theorem consumeWalk_cons (rem : ℚ) (i : ℕ) (lot : TaxLot) (rest : List (ℕ × TaxLot)) :
    consumeWalk rem ((i, lot) :: rest) =
      if rem ≤ 0 then ([], rem)
      else if lot.amount ≤ rem then
        ((i, lot) :: (consumeWalk (rem - lot.amount) rest).1,
         (consumeWalk (rem - lot.amount) rest).2)
      else ([(i, { lot with amount := rem })], 0) := rfl

/-- If the walk ends with a positive remainder, it consumed every lot whole:
the snapshots are exactly the input list. -/
theorem consumeWalk_consumed_of_pos {rem : ℚ} {l : List (ℕ × TaxLot)}
    (h : 0 < (consumeWalk rem l).2) : (consumeWalk rem l).1 = l := by
  induction l generalizing rem with
  | nil => rfl
  | cons p rest ih =>
      rcases p with ⟨i, lot⟩
      rw [consumeWalk_cons] at h ⊢
      by_cases h0 : rem ≤ 0
      · rw [if_pos h0] at h
        exact absurd h (by simpa using h0)
      · rw [if_neg h0] at h ⊢
        by_cases h1 : lot.amount ≤ rem
        · rw [if_pos h1] at h ⊢
          simpa using ih h
        · rw [if_neg h1] at h
          exact absurd h (by norm_num)

/-- Per-index consumed amounts only depend on the snapshot multiset. -/
theorem consumedAt_perm {cs ds : List (ℕ × TaxLot)} (h : cs.Perm ds) (i : ℕ) :
    consumedAt cs i = consumedAt ds i :=
  ((h.filter _).map _).sum_eq

theorem consumedAt_nil (i : ℕ) : consumedAt [] i = 0 := rfl

theorem consumedAt_cons (c : ℕ × TaxLot) (cs : List (ℕ × TaxLot)) (i : ℕ) :
    consumedAt (c :: cs) i =
      if c.1 = i then c.2.amount + consumedAt cs i else consumedAt cs i := by
  unfold consumedAt
  by_cases h : c.1 = i
  · simp [List.filter_cons, h]
  · simp [List.filter_cons, h]

/-- Indices appearing in `enumFrom k` are at least `k`. -/
theorem le_of_mem_enumFrom {l : List TaxLot} {k i : ℕ} {a : TaxLot}
    (h : (i, a) ∈ l.enumFrom k) : k ≤ i := by
  induction l generalizing k with
  | nil => simp [List.enumFrom] at h
  | cons x xs ih =>
      simp only [List.enumFrom, List.mem_cons] at h
      rcases h with h | h
      · cases h; exact le_refl _
      · exact Nat.le_of_succ_le (ih h)

/-- In a consumed list that is `enumFrom k` itself, the amount charged to
index `i` is the amount of the lot tagged `i`. -/
theorem consumedAt_enumFrom {l : List TaxLot} {k i : ℕ} {a : TaxLot}
    (h : (i, a) ∈ l.enumFrom k) : consumedAt (l.enumFrom k) i = a.amount := by
  induction l generalizing k with
  | nil => simp [List.enumFrom] at h
  | cons x xs ih =>
      simp only [List.enumFrom, List.mem_cons] at h
      rcases h with h | h
      · cases h
        rw [List.enumFrom, consumedAt_cons, if_pos rfl]
        have hz : consumedAt (xs.enumFrom (i + 1)) i = 0 := by
          unfold consumedAt
          have : (xs.enumFrom (i + 1)).filter (fun c => c.1 == i) = [] := by
            apply List.filter_eq_nil_iff.mpr
            intro c hc
            rcases c with ⟨j, b⟩
            have := le_of_mem_enumFrom hc
            simp only [beq_iff_eq]
            omega
          rw [this]; rfl
        rw [hz]; ring
      · have hk : k ≤ i := Nat.le_of_succ_le (le_of_mem_enumFrom h)
        have hki : k ≠ i := by
          have := le_of_mem_enumFrom h; omega
        rw [List.enumFrom, consumedAt_cons, if_neg hki]
        exact ih h

/-- Mapping the per-index consumption over an enumeration whose every index is
fully charged zeroes every amount. -/
theorem applyConsumption_enumFrom (entry : List TaxLot) (cs : List (ℕ × TaxLot)) (k : ℕ)
    (key : ∀ p ∈ entry.enumFrom k, consumedAt cs p.1 = p.2.amount) :
    (entry.enumFrom k).map
        (fun p => { p.2 with amount := p.2.amount - consumedAt cs p.1 }) =
      entry.map (fun l => { l with amount := 0 }) := by
  induction entry generalizing k with
  | nil => rfl
  | cons x xs ih =>
      simp only [List.enumFrom, List.map_cons, List.cons.injEq]
      refine ⟨?_, ?_⟩
      · have hx := key (k, x) (by simp [List.enumFrom])
        simp only at hx
        rw [hx]
        simp
      · exact ih (k + 1) (fun p hp => key p (by simp [List.enumFrom]; right; exact hp))

/-- Full consumption zeroes every lot of the entry in place. -/
theorem applyConsumption_all {entry : List TaxLot} {cs : List (ℕ × TaxLot)}
    (h : cs.Perm entry.enum) :
    applyConsumption entry cs = entry.map (fun l => { l with amount := 0 }) := by
  unfold applyConsumption
  exact applyConsumption_enumFrom entry cs 0 (fun p hp => by
    rcases p with ⟨i, a⟩
    rw [consumedAt_perm h]
    exact consumedAt_enumFrom hp)

/-! ### C1 — atomicity of `consume` on InsufficientLots failure -/

/-- C1 (counterexample): a pool holding 0.5 BTC, asked for 1 BTC, fails with
InsufficientLots, yet the pool is observably changed — the lot's remaining
amount has been zeroed in place, contradicting the claim that a failing
`consume` leaves the pool untouched. -/
theorem c1_atomicity_counterexample :
    ((getLots c1Pool "coinbase" "BTC").map (·.amount)).sum < 1 ∧
    (consumeLots c1Pool "coinbase" "BTC" 1 .FIFO).2 = none ∧
    getLots (consumeLots c1Pool "coinbase" "BTC" 1 .FIFO).1 "coinbase" "BTC" ≠
      getLots c1Pool "coinbase" "BTC" ∧
    (consumeLots c1Pool "coinbase" "BTC" 1 .FIFO).1 ≠ c1Pool := by
  refine ⟨by norm_num [c1Pool, c1Lot, addLot, emptyPool, assocGet, assocSet, getLots], ?_, ?_, ?_⟩ <;>
    norm_num [consumeLots, getLots, c1Pool, addLot, emptyPool, c1Lot, assocGet, assocSet,
      setLots, consumeWalk, applyConsumption, consumedAt, List.insertionSort,
      List.orderedInsert, methodRel, List.enum, List.enumFrom, WalletLotPool.mk.injEq,
      TaxLot.mk.injEq]

/-- C1 (amended): a failing `consume` is atomic only in the no-lots case.  When
no lots exist for `(wallet, asset)` the pool is returned unchanged; when lots
exist but sum to less than the requested amount, every lot of that entry has
its remaining amount zeroed in place (none is removed), and the rest of the
pool is untouched. -/
theorem c1_consume_failure_state (p : WalletLotPool) (wallet asset : String)
    (amount : ℚ) (method : CostBasisMethod)
    (hfail : (consumeLots p wallet asset amount method).2 = none) :
    (getLots p wallet asset = [] ∧ (consumeLots p wallet asset amount method).1 = p) ∨
    (getLots p wallet asset ≠ [] ∧
      (consumeLots p wallet asset amount method).1 =
        setLots p wallet asset
          ((getLots p wallet asset).map (fun l => { l with amount := 0 }))) := by
  by_cases hempty : (getLots p wallet asset).isEmpty
  · left
    refine ⟨List.isEmpty_iff.mp hempty, ?_⟩
    unfold consumeLots
    rw [if_pos hempty]
  · right
    refine ⟨fun hnil => hempty (by simp [hnil]), ?_⟩
    unfold consumeLots at hfail ⊢
    rw [if_neg hempty] at hfail ⊢
    by_cases hrem :
        0 < (consumeWalk amount
          (List.insertionSort (methodRel method) (getLots p wallet asset).enum)).2
    · rw [if_pos hrem] at hfail ⊢
      have hall := consumeWalk_consumed_of_pos hrem
      rw [hall]
      dsimp only
      congr 1
      exact applyConsumption_all (List.perm_insertionSort (methodRel method) _)
    · rw [if_neg hrem] at hfail
      exact absurd hfail (by simp)

/-- C1 witness: the amended theorem applied to the concrete 0.5-BTC pool. -/
theorem c1_consume_failure_state_witness :
    (getLots c1Pool "coinbase" "BTC" = [] ∧
      (consumeLots c1Pool "coinbase" "BTC" 1 .FIFO).1 = c1Pool) ∨
    (getLots c1Pool "coinbase" "BTC" ≠ [] ∧
      (consumeLots c1Pool "coinbase" "BTC" 1 .FIFO).1 =
        setLots c1Pool "coinbase" "BTC"
          ((getLots c1Pool "coinbase" "BTC").map (fun l => { l with amount := 0 }))) :=
  c1_consume_failure_state c1Pool "coinbase" "BTC" 1 .FIFO (by
    norm_num [consumeLots, getLots, c1Pool, addLot, emptyPool, c1Lot, assocGet, assocSet,
      setLots, consumeWalk, applyConsumption, consumedAt, List.insertionSort,
      List.orderedInsert, methodRel, List.enum, List.enumFrom])

/-! ### Walk accounting lemmas -/

/-- The walk's snapshots account exactly for what was taken off the request. -/
theorem consumeWalk_sum (rem : ℚ) (l : List (ℕ × TaxLot)) :
    ((consumeWalk rem l).1.map (·.2.amount)).sum = rem - (consumeWalk rem l).2 := by
  induction l generalizing rem with
  | nil => simp [consumeWalk_nil]
  | cons p rest ih =>
      rcases p with ⟨i, lot⟩
      rw [consumeWalk_cons]
      by_cases h0 : rem ≤ 0
      · simp [h0]
      · rw [if_neg h0]
        by_cases h1 : lot.amount ≤ rem
        · rw [if_pos h1]
          simp only [List.map_cons, List.sum_cons, ih (rem - lot.amount)]
          ring
        · rw [if_neg h1]
          simp

/-- A walk on a non-negative request leaves a non-negative remainder. -/
theorem consumeWalk_leftover_nonneg {rem : ℚ} (l : List (ℕ × TaxLot)) (h : 0 ≤ rem) :
    0 ≤ (consumeWalk rem l).2 := by
  induction l generalizing rem with
  | nil => simpa [consumeWalk_nil] using h
  | cons p rest ih =>
      rcases p with ⟨i, lot⟩
      rw [consumeWalk_cons]
      by_cases h0 : rem ≤ 0
      · simpa [h0] using h
      · rw [if_neg h0]
        by_cases h1 : lot.amount ≤ rem
        · rw [if_pos h1]
          exact ih (by linarith)
        · rw [if_neg h1]

/-- A successful `consumeLots` consumes exactly the requested amount. -/
theorem consumeLots_sum {p : WalletLotPool} {wallet asset : String} {amount : ℚ}
    {method : CostBasisMethod} {p1 : WalletLotPool} {consumed : List TaxLot}
    (h : consumeLots p wallet asset amount method = (p1, some consumed))
    (h0 : 0 ≤ amount) :
    (consumed.map (·.amount)).sum = amount := by
  unfold consumeLots at h
  by_cases he : (getLots p wallet asset).isEmpty
  · rw [if_pos he] at h
    simp at h
  · rw [if_neg he] at h
    by_cases hr : 0 < (consumeWalk amount
        (List.insertionSort (methodRel method) (getLots p wallet asset).enum)).2
    · rw [if_pos hr] at h
      simp at h
    · rw [if_neg hr] at h
      simp only [Prod.mk.injEq, Option.some.injEq] at h
      have hzero : (consumeWalk amount
          (List.insertionSort (methodRel method) (getLots p wallet asset).enum)).2 = 0 :=
        le_antisymm (not_lt.mp hr) (consumeWalk_leftover_nonneg _ h0)
      have hs := consumeWalk_sum amount
        (List.insertionSort (methodRel method) (getLots p wallet asset).enum)
      rw [hzero, sub_zero] at hs
      rw [← h.2, List.map_map]
      exact hs

/-- Summing a proportional split recovers the total: list form. -/
theorem sum_map_mul_div (l : List ℚ) (P T : ℚ) :
    (l.map (fun x => P * (x / T))).sum = P * l.sum / T := by
  induction l with
  | nil => simp
  | cons x xs ih =>
      simp only [List.map_cons, List.sum_cons, ih]
      ring

/-! ### C2 — proceeds linearity of the disposal engine -/

/-- C2 (confirmed): a successful disposal's per-lot amounts sum to the
requested amount and its per-lot proceeds sum exactly to the total proceeds —
no drift under the exact-decimal arithmetic of the data model. -/
theorem c2_proceeds_linearity (p : WalletLotPool) (wallet asset : String)
    (amount proceeds : ℚ) (disposalDate : ℤ) (disposalType : TransactionType)
    (method : CostBasisMethod) (results : List DisposalResult)
    (hpos : 0 < amount)
    (hok : (processDisposal p wallet asset amount proceeds disposalDate disposalType
      method).2 = some results) :
    (results.map (·.amount)).sum = amount ∧
    (results.map (·.proceeds)).sum = proceeds := by
  unfold processDisposal at hok
  rcases hcl : consumeLots p wallet asset amount method with ⟨p1, o⟩
  rw [hcl] at hok
  cases o with
  | none => simp at hok
  | some consumed =>
      simp only [Option.some.injEq] at hok
      have hsum : (consumed.map (·.amount)).sum = amount :=
        consumeLots_sum hcl (le_of_lt hpos)
      have hamounts : (results.map (·.amount)).sum = amount := by
        rw [← hok, List.map_map]
        exact hsum
      refine ⟨hamounts, ?_⟩
      have hproc : results.map (·.proceeds) =
          (consumed.map (·.amount)).map
            (fun x => proceeds * (x / (consumed.map (·.amount)).sum)) := by
        rw [← hok, List.map_map, List.map_map]
        rfl
      rw [hproc, sum_map_mul_div, hsum]
      rw [mul_div_assoc, div_self (ne_of_gt hpos), mul_one]

/-- C2 witness: a 2-unit HIFO disposal across two 1-unit lots. -/
theorem c2_proceeds_linearity_witness :
    (0 : ℚ) < 2 ∧
    ((((processDisposal c2Pool "w" "BTC" 2 90000 86400001 .SELL .HIFO).2.getD []).map
        (fun r => r.amount)).sum = 2) ∧
    ((((processDisposal c2Pool "w" "BTC" 2 90000 86400001 .SELL .HIFO).2.getD []).map
        (fun r => r.proceeds)).sum = 90000) := by
  have hok : (processDisposal c2Pool "w" "BTC" 2 90000 86400001 .SELL .HIFO).2 =
      some ((processDisposal c2Pool "w" "BTC" 2 90000 86400001 .SELL .HIFO).2.getD []) := by
    norm_num [processDisposal, consumeLots, getLots, c2Pool, addLot, emptyPool, assocGet,
      assocSet, setLots, consumeWalk, applyConsumption, consumedAt, List.insertionSort,
      List.orderedInsert, methodRel, List.enum, List.enumFrom, isLongTerm, getHoldingDays,
      msPerDay, LONG_TERM_HOLDING_DAYS]
  have h := c2_proceeds_linearity c2Pool "w" "BTC" 2 90000 86400001 .SELL .HIFO
    ((processDisposal c2Pool "w" "BTC" 2 90000 86400001 .SELL .HIFO).2.getD [])
    (by norm_num) hok
  exact ⟨by norm_num, h.1, h.2⟩

/-! ### C6 — holding period and long-term flag -/

/-- C6 (confirmed): every disposal result carries
`holdingDays = floor((disposal − acquisition) / 1 day)` and is long-term
exactly when more than 365 days were held. -/
theorem c6_holding_period (p : WalletLotPool) (wallet asset : String)
    (amount proceeds : ℚ) (disposalDate : ℤ) (disposalType : TransactionType)
    (method : CostBasisMethod) (results : List DisposalResult) (r : DisposalResult)
    (hok : (processDisposal p wallet asset amount proceeds disposalDate disposalType
      method).2 = some results)
    (hr : r ∈ results) :
    r.holdingDays = Int.fdiv (disposalDate - r.acquisitionDate) msPerDay ∧
    (r.isLongTerm = true ↔ 365 < r.holdingDays) := by
  unfold processDisposal at hok
  rcases hcl : consumeLots p wallet asset amount method with ⟨p1, o⟩
  rw [hcl] at hok
  cases o with
  | none => simp at hok
  | some consumed =>
      simp only [Option.some.injEq] at hok
      rw [← hok] at hr
      obtain ⟨lot, _, rfl⟩ := List.mem_map.mp hr
      refine ⟨rfl, ?_⟩
      simp [isLongTerm, getHoldingDays, LONG_TERM_HOLDING_DAYS]

/-- C6 witness: a 366-day-held lot is long-term with the floored day count. -/
theorem c6_holding_period_witness :
    (processDisposal c6Pool "w" "BTC" 1 50000 31622400000 .SELL .FIFO).2 =
      some [c6Result] ∧
    c6Result ∈ [c6Result] ∧
    (c6Result.holdingDays = Int.fdiv ((31622400000 : ℤ) - c6Result.acquisitionDate) msPerDay ∧
      (c6Result.isLongTerm = true ↔ 365 < c6Result.holdingDays)) := by
  have hok : (processDisposal c6Pool "w" "BTC" 1 50000 31622400000 .SELL .FIFO).2 =
      some [c6Result] := by
    norm_num [processDisposal, consumeLots, getLots, c6Pool, addLot, emptyPool, assocGet,
      assocSet, setLots, consumeWalk, applyConsumption, consumedAt, List.insertionSort,
      List.orderedInsert, methodRel, List.enum, List.enumFrom, isLongTerm, getHoldingDays,
      msPerDay, LONG_TERM_HOLDING_DAYS, c6Result]
    decide
  exact ⟨hok, List.mem_singleton.mpr rfl,
    c6_holding_period c6Pool "w" "BTC" 1 50000 31622400000 .SELL .FIFO [c6Result] c6Result
      hok (List.mem_singleton.mpr rfl)⟩

/-! ### C7 — greedy dominance of HIFO -/

instance (m : CostBasisMethod) : IsTotal (ℕ × TaxLot) (methodRel m) := by
  cases m <;> exact ⟨fun a b => le_total _ _⟩

instance (m : CostBasisMethod) : IsTrans (ℕ × TaxLot) (methodRel m) := by
  cases m
  · exact ⟨fun a b c hab hbc => le_trans hab hbc⟩
  · exact ⟨fun a b c hab hbc => le_trans hbc hab⟩
  · exact ⟨fun a b c hab hbc => le_trans hbc hab⟩

theorem walkBasis_nil (rem : ℚ) : walkBasis rem [] = 0 := rfl

theorem walkBasis_cons (rem : ℚ) (i : ℕ) (lot : TaxLot) (rest : List (ℕ × TaxLot)) :
    walkBasis rem ((i, lot) :: rest) =
      if rem ≤ 0 then 0
      else if lot.amount ≤ rem then
        lot.amount * lot.costBasisPerUnit + walkBasis (rem - lot.amount) rest
      else rem * lot.costBasisPerUnit := by
  unfold walkBasis
  rw [consumeWalk_cons]
  by_cases h0 : rem ≤ 0
  · simp [h0]
  · rw [if_neg h0, if_neg h0]
    by_cases h1 : lot.amount ≤ rem
    · simp [h1]
    · simp [h1]

/-- Lot data invariant used by the dominance argument: non-negative amounts and
bases (the data model requires both of pool lots). -/
def LotNN (l : List (ℕ × TaxLot)) : Prop :=
  ∀ x ∈ l, 0 ≤ x.2.amount ∧ 0 ≤ x.2.costBasisPerUnit

theorem walkBasis_of_nonpos {rem : ℚ} (h : rem ≤ 0) (l : List (ℕ × TaxLot)) :
    walkBasis rem l = 0 := by
  cases l with
  | nil => rfl
  | cons p rest =>
      rcases p with ⟨i, lot⟩
      rw [walkBasis_cons, if_pos h]

theorem walkBasis_nonneg (rem : ℚ) (l : List (ℕ × TaxLot)) (hnn : LotNN l) :
    0 ≤ walkBasis rem l := by
  induction l generalizing rem with
  | nil => simp [walkBasis_nil]
  | cons p rest ih =>
      rcases p with ⟨i, lot⟩
      obtain ⟨hamt, hcb⟩ := hnn (i, lot) (List.mem_cons_self _ _)
      have hnn' : LotNN rest := fun x hx => hnn x (List.mem_cons_of_mem _ hx)
      rw [walkBasis_cons]
      by_cases h0 : rem ≤ 0
      · simp [h0]
      · rw [if_neg h0]
        by_cases h1 : lot.amount ≤ rem
        · rw [if_pos h1]
          exact add_nonneg (mul_nonneg hamt hcb) (ih (rem - lot.amount) hnn')
        · rw [if_neg h1]
          exact mul_nonneg (le_of_lt (lt_of_not_le h0)) hcb

set_option maxHeartbeats 1600000 in
/-- Exchange step: putting the higher-basis lot first cannot decrease the
basis charged by the walk. -/
theorem walkBasis_exchange (rem : ℚ) (a b : ℕ × TaxLot) (rest : List (ℕ × TaxLot))
    (hq : b.2.costBasisPerUnit ≤ a.2.costBasisPerUnit)
    (hnn : LotNN (a :: b :: rest)) (hrem : 0 ≤ rem) :
    walkBasis rem (b :: a :: rest) ≤ walkBasis rem (a :: b :: rest) := by
  obtain ⟨ha, hpa⟩ := hnn a (List.mem_cons_self _ _)
  obtain ⟨hb, hpb⟩ := hnn b (List.mem_cons_of_mem _ (List.mem_cons_self _ _))
  have hnnrest : LotNN rest := fun x hx =>
    hnn x (List.mem_cons_of_mem _ (List.mem_cons_of_mem _ hx))
  rcases a with ⟨ia, A⟩
  rcases b with ⟨ib, B⟩
  simp only at hq ha hb hpa hpb
  simp only [walkBasis_cons]
  rw [show rem - B.amount - A.amount = rem - A.amount - B.amount from by ring]
  by_cases hz : rem - A.amount - B.amount ≤ 0
  · rw [walkBasis_of_nonpos hz]
    split_ifs <;>
      first
        | linarith
        | nlinarith [mul_le_mul_of_nonneg_right hq hrem,
            mul_le_mul_of_nonneg_right hq ha,
            mul_le_mul_of_nonneg_right hq hb,
            mul_nonneg ha hpa, mul_nonneg hb hpb,
            mul_nonneg ha hpb, mul_nonneg hb hpa,
            mul_nonneg hrem hpa, mul_nonneg hrem hpb]
  · have hW : 0 ≤ walkBasis (rem - A.amount - B.amount) rest :=
      walkBasis_nonneg _ _ hnnrest
    split_ifs <;> linarith

/-- Bubbling a maximal-basis lot over a prefix cannot decrease the charged
basis. -/
theorem walkBasis_bubble (a : ℕ × TaxLot) (u v : List (ℕ × TaxLot)) (rem : ℚ)
    (hmax : ∀ x ∈ u, x.2.costBasisPerUnit ≤ a.2.costBasisPerUnit)
    (hnn : LotNN (u ++ a :: v)) (hrem : 0 ≤ rem) :
    walkBasis rem (u ++ a :: v) ≤ walkBasis rem (a :: (u ++ v)):= by
  induction u generalizing rem with
  | nil => simp
  | cons b u' ih =>
      have hnnb := hnn b (List.mem_cons_self _ _)
      have hnn1 : LotNN (u' ++ a :: v) := fun x hx =>
        hnn x (List.mem_cons_of_mem _ hx)
      have hnn2 : LotNN (a :: b :: (u' ++ v)) := by
        intro x hx
        rcases List.mem_cons.mp hx with h | hx'
        · exact hnn x (by subst h; simp)
        · rcases List.mem_cons.mp hx' with h | hx''
          · exact hnn x (by subst h; simp)
          · apply hnn
            rcases List.mem_append.mp hx'' with h | h
            · simp [h]
            · simp [h]
      have step1 : walkBasis rem (b :: (u' ++ a :: v)) ≤
          walkBasis rem (b :: (a :: (u' ++ v))) := by
        rcases b with ⟨jb, Bb⟩
        simp only [walkBasis_cons]
        by_cases h0 : rem ≤ 0
        · simp [h0]
        · rw [if_neg h0, if_neg h0]
          by_cases h1 : Bb.amount ≤ rem
          · rw [if_pos h1, if_pos h1]
            have := ih (rem - Bb.amount)
              (fun x hx => hmax x (List.mem_cons_of_mem _ hx))
              hnn1
              (by
                have hBb := hnnb.1
                simp only at hBb
                linarith)
            linarith
          · rw [if_neg h1, if_neg h1]
      have step2 : walkBasis rem (b :: a :: (u' ++ v)) ≤
          walkBasis rem (a :: b :: (u' ++ v)) :=
        walkBasis_exchange rem a b (u' ++ v)
          (hmax b (List.mem_cons_self _ _)) hnn2 hrem
      calc walkBasis rem ((b :: u') ++ a :: v)
          = walkBasis rem (b :: (u' ++ a :: v)) := rfl
        _ ≤ walkBasis rem (b :: (a :: (u' ++ v))) := step1
        _ ≤ walkBasis rem (a :: b :: (u' ++ v)) := step2
        _ = walkBasis rem (a :: ((b :: u') ++ v)) := rfl

/-- The walk charges the most basis on the descending-basis ordering: any
permutation charges at most as much. -/
theorem walkBasis_le_sorted (l l' : List (ℕ × TaxLot)) (rem : ℚ)
    (hperm : l'.Perm l)
    (hsorted : l.Pairwise (fun a b => b.2.costBasisPerUnit ≤ a.2.costBasisPerUnit))
    (hnn : LotNN l) (hrem : 0 ≤ rem) :
    walkBasis rem l' ≤ walkBasis rem l := by
  induction l generalizing l' rem with
  | nil =>
      rw [List.perm_nil.mp hperm]
  | cons a t ih =>
      have hmem : a ∈ l' := hperm.mem_iff.mpr (List.mem_cons_self _ _)
      obtain ⟨u, v, rfl⟩ := List.append_of_mem hmem
      have hperm' : (u ++ v).Perm t :=
        (List.perm_middle.symm.trans hperm).cons_inv
      have hmaxu : ∀ x ∈ u, x.2.costBasisPerUnit ≤ a.2.costBasisPerUnit := by
        intro x hx
        have hxl : x ∈ a :: t := hperm.subset (by simp [hx])
        rcases List.mem_cons.mp hxl with h | h
        · rw [h]
        · exact (List.pairwise_cons.mp hsorted).1 x h
      have hnn' : LotNN (u ++ a :: v) := fun x hx => hnn x (hperm.subset hx)
      have h1 : walkBasis rem (u ++ a :: v) ≤ walkBasis rem (a :: (u ++ v)) :=
        walkBasis_bubble a u v rem hmaxu hnn' hrem
      have h2 : walkBasis rem (a :: (u ++ v)) ≤ walkBasis rem (a :: t) := by
        have hamta : 0 ≤ a.2.amount := (hnn a (List.mem_cons_self _ _)).1
        rcases a with ⟨j, A⟩
        simp only [walkBasis_cons]
        by_cases h0 : rem ≤ 0
        · simp [h0]
        · rw [if_neg h0, if_neg h0]
          by_cases h1 : A.amount ≤ rem
          · rw [if_pos h1, if_pos h1]
            have := ih (u ++ v) (rem - A.amount) hperm'
              (List.pairwise_cons.mp hsorted).2
              (fun x hx => hnn x (List.mem_cons_of_mem _ hx))
              (by
                simp only at hamta
                linarith)
            linarith
          · rw [if_neg h1, if_neg h1]
      exact le_trans h1 h2

/-- Elements of an enumeration come from the list. -/
theorem snd_mem_of_mem_enumFrom {l : List TaxLot} {k : ℕ} {p : ℕ × TaxLot}
    (h : p ∈ l.enumFrom k) : p.2 ∈ l := by
  induction l generalizing k with
  | nil => simp [List.enumFrom] at h
  | cons x xs ih =>
      simp only [List.enumFrom, List.mem_cons] at h
      rcases h with h | h
      · rw [h]; exact List.mem_cons_self _ _
      · exact List.mem_cons_of_mem _ (ih h)

/-- Enumerating and projecting back is the identity. -/
theorem enumFrom_map_snd (l : List TaxLot) (k : ℕ) :
    (l.enumFrom k).map (·.2) = l := by
  induction l generalizing k with
  | nil => rfl
  | cons x xs ih => simp [List.enumFrom, ih]

/-- When the request is covered by the listed amounts, the walk finishes with a
non-positive remainder. -/
theorem consumeWalk_leftover_nonpos {rem : ℚ} {l : List (ℕ × TaxLot)}
    (h : rem ≤ (l.map (·.2.amount)).sum) : (consumeWalk rem l).2 ≤ 0 := by
  induction l generalizing rem with
  | nil => simpa using h
  | cons p rest ih =>
      rcases p with ⟨i, lot⟩
      rw [consumeWalk_cons]
      by_cases h0 : rem ≤ 0
      · simp only [if_pos h0]
        exact h0
      · rw [if_neg h0]
        simp only [List.map_cons, List.sum_cons] at h
        by_cases h1 : lot.amount ≤ rem
        · rw [if_pos h1]
          exact ih (by linarith)
        · rw [if_neg h1]

/-- `consumeLots` succeeds whenever the entry is covering: non-empty lots whose
amounts sum to at least the (positive) request. -/
theorem consumeLots_isSome (p : WalletLotPool) (wallet asset : String)
    (amount : ℚ) (method : CostBasisMethod)
    (hpos : 0 < amount)
    (hcover : amount ≤ ((getLots p wallet asset).map (·.amount)).sum) :
    ((consumeLots p wallet asset amount method).2).isSome := by
  have hne : ¬ (getLots p wallet asset).isEmpty := by
    intro hempty
    rw [List.isEmpty_iff.mp hempty] at hcover
    simp at hcover
    linarith
  have hsum : ((List.insertionSort (methodRel method)
      (getLots p wallet asset).enum).map (·.2.amount)).sum =
      ((getLots p wallet asset).map (·.amount)).sum := by
    have hp : (List.insertionSort (methodRel method)
        (getLots p wallet asset).enum).Perm (getLots p wallet asset).enum :=
      List.perm_insertionSort (methodRel method) _
    rw [(hp.map _).sum_eq]
    rw [show (getLots p wallet asset).enum = (getLots p wallet asset).enumFrom 0 from rfl]
    rw [show ((getLots p wallet asset).enumFrom 0).map (·.2.amount) =
      (((getLots p wallet asset).enumFrom 0).map (·.2)).map (·.amount) from by
        rw [List.map_map]; rfl]
    rw [enumFrom_map_snd]
  have hleft : (consumeWalk amount (List.insertionSort (methodRel method)
      (getLots p wallet asset).enum)).2 ≤ 0 :=
    consumeWalk_leftover_nonpos (by rw [hsum]; exact hcover)
  unfold consumeLots
  rw [if_neg hne, if_neg (not_lt.mpr hleft)]
  rfl

/-- Sum of a pointwise difference. -/
theorem sum_map_sub {α : Type} (l : List α) (f g : α → ℚ) :
    (l.map (fun x => f x - g x)).sum = (l.map f).sum - (l.map g).sum := by
  induction l with
  | nil => simp
  | cons x xs ih =>
      simp only [List.map_cons, List.sum_cons, ih]
      ring

/-- The total gain of a successful disposal is the proceeds minus the basis
charged by that method's walk. -/
theorem processDisposal_gain_eq {p : WalletLotPool} {wallet asset : String}
    {amount proceeds : ℚ} {date : ℤ} {dtype : TransactionType}
    {method : CostBasisMethod} {p1 : WalletLotPool} {consumed : List TaxLot}
    (hcl : consumeLots p wallet asset amount method = (p1, some consumed))
    (hpos : 0 < amount) :
    ((((processDisposal p wallet asset amount proceeds date dtype method).2.getD
        []).map (·.gainOrLoss)).sum) =
      proceeds - (consumed.map (fun l => l.amount * l.costBasisPerUnit)).sum := by
  unfold processDisposal
  rw [hcl]
  simp only [Option.getD_some, List.map_map]
  simp only [Function.comp_def]
  rw [sum_map_sub consumed
    (fun lot => proceeds * (lot.amount / (consumed.map (·.amount)).sum))
    (fun lot => lot.amount * lot.costBasisPerUnit)]
  have hsum : (consumed.map (·.amount)).sum = amount :=
    consumeLots_sum hcl (le_of_lt hpos)
  have hmm : (consumed.map (fun lot =>
      proceeds * (lot.amount / (consumed.map (·.amount)).sum))).sum = proceeds := by
    rw [show (consumed.map (fun lot =>
        proceeds * (lot.amount / (consumed.map (·.amount)).sum))) =
      ((consumed.map (·.amount)).map
        (fun x => proceeds * (x / (consumed.map (·.amount)).sum))) from by
        rw [List.map_map]
        rfl]
    rw [sum_map_mul_div, hsum, mul_div_assoc, div_self (ne_of_gt hpos), mul_one]
  rw [hmm]

/-- The basis a successful `consumeLots` charges is the walk basis of its
sorted view. -/
theorem consumeLots_basis {p : WalletLotPool} {wallet asset : String}
    {amount : ℚ} {method : CostBasisMethod} {p1 : WalletLotPool}
    {consumed : List TaxLot}
    (hcl : consumeLots p wallet asset amount method = (p1, some consumed)) :
    (consumed.map (fun l => l.amount * l.costBasisPerUnit)).sum =
      walkBasis amount
        (List.insertionSort (methodRel method) (getLots p wallet asset).enum) := by
  unfold consumeLots at hcl
  by_cases he : (getLots p wallet asset).isEmpty
  · rw [if_pos he] at hcl
    simp at hcl
  · rw [if_neg he] at hcl
    by_cases hr : 0 < (consumeWalk amount
        (List.insertionSort (methodRel method) (getLots p wallet asset).enum)).2
    · rw [if_pos hr] at hcl
      simp at hcl
    · rw [if_neg hr] at hcl
      simp only [Prod.mk.injEq, Option.some.injEq] at hcl
      rw [← hcl.2]
      unfold walkBasis
      rw [List.map_map]
      rfl

/-- C7 (confirmed): on a single fully-satisfiable disposal, HIFO realizes at
most the gain of FIFO and at most the gain of LIFO. -/
theorem c7_method_dominance (wallet asset : String) (lots : List TaxLot)
    (amount proceeds : ℚ) (date : ℤ) (dtype : TransactionType)
    (hamounts : ∀ lot ∈ lots, 0 < lot.amount)
    (hbases : ∀ lot ∈ lots, 0 ≤ lot.costBasisPerUnit)
    (hpos : 0 < amount)
    (hfull : amount ≤ (lots.map (·.amount)).sum) :
    (((processDisposal (entryPool wallet asset lots) wallet asset amount proceeds
        date dtype .HIFO).2).isSome ∧
     ((processDisposal (entryPool wallet asset lots) wallet asset amount proceeds
        date dtype .FIFO).2).isSome ∧
     ((processDisposal (entryPool wallet asset lots) wallet asset amount proceeds
        date dtype .LIFO).2).isSome) ∧
    methodGain wallet asset lots amount proceeds date dtype .HIFO ≤
      methodGain wallet asset lots amount proceeds date dtype .FIFO ∧
    methodGain wallet asset lots amount proceeds date dtype .HIFO ≤
      methodGain wallet asset lots amount proceeds date dtype .LIFO := by
  have hget : getLots (entryPool wallet asset lots) wallet asset = lots := by
    simp [entryPool, getLots, assocGet]
  have hcover : amount ≤
      ((getLots (entryPool wallet asset lots) wallet asset).map (·.amount)).sum := by
    rw [hget]; exact hfull
  have hsomeCL : ∀ m : CostBasisMethod,
      ((consumeLots (entryPool wallet asset lots) wallet asset amount m).2).isSome :=
    fun m => consumeLots_isSome _ _ _ _ m hpos hcover
  have hsomePD : ∀ m : CostBasisMethod,
      ((processDisposal (entryPool wallet asset lots) wallet asset amount proceeds
        date dtype m).2).isSome := by
    intro m
    have := hsomeCL m
    unfold processDisposal
    rcases hcl : consumeLots (entryPool wallet asset lots) wallet asset amount m with
      ⟨p1, o⟩
    rw [hcl] at this
    cases o with
    | none => simp at this
    | some consumed => rfl
  have hgain : ∀ m : CostBasisMethod,
      methodGain wallet asset lots amount proceeds date dtype m =
        proceeds - walkBasis amount
          (List.insertionSort (methodRel m) lots.enum) := by
    intro m
    have := hsomeCL m
    rcases hcl : consumeLots (entryPool wallet asset lots) wallet asset amount m with
      ⟨p1, o⟩
    rw [hcl] at this
    cases o with
    | none => simp at this
    | some consumed =>
        unfold methodGain
        rw [processDisposal_gain_eq hcl hpos, consumeLots_basis hcl, hget]
  have hamts : ∀ m : CostBasisMethod,
      LotNN (List.insertionSort (methodRel m) lots.enum) := by
    intro m x hx
    have hx' : x ∈ lots.enum := ((List.perm_insertionSort (methodRel m) _).mem_iff).mp hx
    have hxl : x.2 ∈ lots := snd_mem_of_mem_enumFrom hx'
    exact ⟨le_of_lt (hamounts x.2 hxl), hbases x.2 hxl⟩
  have hdom : ∀ m : CostBasisMethod,
      walkBasis amount (List.insertionSort (methodRel m) lots.enum) ≤
        walkBasis amount (List.insertionSort (methodRel .HIFO) lots.enum) := by
    intro m
    apply walkBasis_le_sorted
    · exact (List.perm_insertionSort (methodRel m) _).trans
        (List.perm_insertionSort (methodRel .HIFO) _).symm
    · exact List.sorted_insertionSort (methodRel .HIFO) lots.enum
    · exact hamts .HIFO
    · exact le_of_lt hpos
  refine ⟨⟨hsomePD .HIFO, hsomePD .FIFO, hsomePD .LIFO⟩, ?_, ?_⟩
  · rw [hgain .HIFO, hgain .FIFO]
    have := hdom .FIFO
    linarith
  · rw [hgain .HIFO, hgain .LIFO]
    have := hdom .LIFO
    linarith

/-- C7 witness: the dominance theorem applied to two one-unit lots with bases
30000 and 40000 and a one-unit disposal. -/
theorem c7_method_dominance_witness :
    (((processDisposal (entryPool "w" "BTC" c7Lots) "w" "BTC" 1 50000 0 .SELL
        .HIFO).2).isSome ∧
     ((processDisposal (entryPool "w" "BTC" c7Lots) "w" "BTC" 1 50000 0 .SELL
        .FIFO).2).isSome ∧
     ((processDisposal (entryPool "w" "BTC" c7Lots) "w" "BTC" 1 50000 0 .SELL
        .LIFO).2).isSome) ∧
    methodGain "w" "BTC" c7Lots 1 50000 0 .SELL .HIFO ≤
      methodGain "w" "BTC" c7Lots 1 50000 0 .SELL .FIFO ∧
    methodGain "w" "BTC" c7Lots 1 50000 0 .SELL .HIFO ≤
      methodGain "w" "BTC" c7Lots 1 50000 0 .SELL .LIFO :=
  c7_method_dominance "w" "BTC" c7Lots 1 50000 0 .SELL
    (by
      intro lot hlot
      simp only [c7Lots, List.mem_cons, List.mem_singleton, List.not_mem_nil,
        or_false] at hlot
      rcases hlot with h | h
      · rw [h]; norm_num
      · rw [h]; norm_num)
    (by
      intro lot hlot
      simp only [c7Lots, List.mem_cons, List.mem_singleton, List.not_mem_nil,
        or_false] at hlot
      rcases hlot with h | h
      · rw [h]; norm_num
      · rw [h]; norm_num)
    (by norm_num)
    (by norm_num [c7Lots])

/-! ### C4 — report-year filtering -/

/-- C4 (counterexample): `generateReport` filters with `getFullYear`, the host's
local calendar year, not the UTC year.  On a UTC−5 host, a disposal at
2025-01-01T02:00Z (UTC year 2025) is included in the 2024 report and excluded
from the 2025 report, contradicting the claim that inclusion is governed by the
UTC calendar year. -/
theorem c4_utc_year_counterexample :
    utcYearOfMs c4Disposal.disposalDate = 2025 ∧
    (generateReport (-300) [c4Disposal] [] [] 2024 .FIFO [] []).disposals =
      [c4Disposal] ∧
    (generateReport (-300) [c4Disposal] [] [] 2025 .FIFO [] []).disposals = [] := by
  refine ⟨by decide, ?_, ?_⟩ <;>
    simp [generateReport, c4Disposal, List.filter] <;> decide

/-- C4 (amended): `generateReport` includes a disposal iff the host-local
calendar year (`getFullYear` under the host's UTC offset) of its disposal
instant equals the target year, an income event iff the host-local year of its
date equals the target year, and passes the remaining lots through verbatim;
the local year agrees with the UTC year exactly on a UTC host (offset 0). -/
theorem c4_report_filter (tz : ℤ) (disposals : List DisposalResult)
    (incomeEvents : List IncomeEvent) (remainingLots : List TaxLot)
    (taxYear : ℤ) (method : CostBasisMethod) (errors : List CalcError)
    (warnings : List CalcWarning) :
    (∀ d, d ∈ (generateReport tz disposals incomeEvents remainingLots taxYear
        method errors warnings).disposals ↔
      d ∈ disposals ∧ localYearOfMs tz d.disposalDate = taxYear) ∧
    (∀ e, e ∈ (generateReport tz disposals incomeEvents remainingLots taxYear
        method errors warnings).incomeEvents ↔
      e ∈ incomeEvents ∧ localYearOfMs tz e.date = taxYear) ∧
    (generateReport tz disposals incomeEvents remainingLots taxYear method errors
      warnings).remainingLots = remainingLots ∧
    (∀ t : ℤ, localYearOfMs 0 t = utcYearOfMs t) := by
  refine ⟨?_, ?_, rfl, ?_⟩
  · intro d
    simp [generateReport, List.mem_filter]
  · intro e
    simp [generateReport, List.mem_filter]
  · intro t
    simp [localYearOfMs]

/-! ### C5 — effective ordering of the replay -/

instance : IsTotal Transaction txRel := ⟨by
  intro a b
  rcases lt_trichotomy a.dateTime b.dateTime with h | h | h
  · exact Or.inl (Or.inl h)
  · rcases le_total (acqFlag a.type) (acqFlag b.type) with hf | hf
    · exact Or.inl (Or.inr ⟨h, hf⟩)
    · exact Or.inr (Or.inr ⟨h.symm, hf⟩)
  · exact Or.inr (Or.inl h)⟩

instance : IsTrans Transaction txRel := ⟨by
  intro a b c hab hbc
  rcases hab with h | ⟨he, hf⟩ <;> rcases hbc with h' | ⟨he', hf'⟩
  · exact Or.inl (lt_trans h h')
  · exact Or.inl (lt_of_lt_of_le h (le_of_eq he'))
  · exact Or.inl (lt_of_le_of_lt (le_of_eq he) h')
  · exact Or.inr ⟨he.trans he', le_trans hf hf'⟩⟩

/-- Reading a lot back right after adding it. -/
theorem assocGet_assocSet_self {α : Type} (m : List (String × α)) (k : String) (v : α) :
    assocGet (assocSet m k v) k = some v := by
  induction m with
  | nil => simp [assocSet, assocGet]
  | cons kv rest ih =>
      rcases kv with ⟨k', v'⟩
      by_cases h : k' = k
      · simp [assocSet, assocGet, h]
      · simp [assocSet, assocGet, h, ih]

/-- Appending semantics of `addLot` at the lot's own keys. -/
theorem getLots_addLot (p : WalletLotPool) (lot : TaxLot) :
    getLots (addLot p lot) lot.wallet lot.asset =
      getLots p lot.wallet lot.asset ++ [lot] := by
  simp [getLots, addLot, assocGet_assocSet_self]

/-- Consuming a single lot whole: the snapshot is the lot itself and the entry
is emptied. -/
theorem consumeLots_single (p : WalletLotPool) (w A : String) (lot : TaxLot)
    (m : CostBasisMethod) (hget : getLots p w A = [lot]) (ha : 0 < lot.amount) :
    consumeLots p w A lot.amount m = (setLots p w A [], some [lot]) := by
  have hsort : List.insertionSort (methodRel m) ([lot]).enum = [(0, lot)] := by
    simp [List.insertionSort, List.enum, List.enumFrom]
  have hwalk : consumeWalk lot.amount [(0, lot)] = ([(0, lot)], 0) := by
    rw [consumeWalk_cons, if_neg (not_le.mpr ha), if_pos (le_refl _)]
    simp [consumeWalk_nil]
  have happ : applyConsumption [lot] [(0, lot)] = [{ lot with amount := 0 }] := by
    simp [applyConsumption, consumedAt, List.enum, List.enumFrom]
  unfold consumeLots
  rw [hget]
  simp only [hsort, hwalk, happ, List.isEmpty_cons, Bool.false_eq_true, if_false]
  norm_num

/-- Disposing a single whole lot: one result carrying the full proceeds. -/
theorem processDisposal_single (p : WalletLotPool) (w A : String) (lot : TaxLot)
    (proceeds : ℚ) (date : ℤ) (dtype : TransactionType) (m : CostBasisMethod)
    (hget : getLots p w A = [lot]) (ha : 0 < lot.amount) :
    processDisposal p w A lot.amount proceeds date dtype m =
      (setLots p w A [], some
        [{ asset := A, amount := lot.amount, disposalDate := date,
           disposalType := dtype, proceeds := proceeds,
           costBasis := lot.amount * lot.costBasisPerUnit,
           gainOrLoss := proceeds - lot.amount * lot.costBasisPerUnit,
           isLongTerm := isLongTerm lot.acquisitionDate date,
           holdingDays := getHoldingDays lot.acquisitionDate date,
           acquisitionDate := lot.acquisitionDate, lotId := lot.id }]) := by
  unfold processDisposal
  rw [consumeLots_single p w A lot m hget ha]
  simp only [List.map_cons, List.map_nil, List.sum_cons, List.sum_nil, add_zero,
    Prod.mk.injEq, Option.some.injEq]
  rw [div_self (ne_of_gt ha), mul_one]
  exact ⟨trivial, rfl⟩

/-- C5 (confirmed): the effective ordering of `calculateTaxes` — a stable sort
by timestamp whose ties put acquisition-flagged kinds first — and its
consequence: a same-instant SELL-before-BUY input replays without error, the
gain being proceeds minus the just-created lot's basis. -/
theorem c5_effective_ordering :
    (∀ txs : List Transaction, (sortTransactions txs).Perm txs) ∧
    (∀ txs : List Transaction, (sortTransactions txs).Pairwise txRel) ∧
    (∀ (txs : List Transaction) (t : ℤ) (f : ℕ),
      (sortTransactions txs).filter
          (fun tx => tx.dateTime = t ∧ acqFlag tx.type = f) =
        txs.filter (fun tx => tx.dateTime = t ∧ acqFlag tx.type = f)) ∧
    (∀ (t : ℤ) (w A : String) (a p q : ℚ) (m : CostBasisMethod), 0 < a →
      (calculateTaxes [sellTx t w A a q, buyTx t w A a p] m).errors = [] ∧
      ((calculateTaxes [sellTx t w A a q, buyTx t w A a p] m).disposals.map
        (·.gainOrLoss)) = [a * q - a * p]) := by
  refine ⟨?_, ?_, ?_, ?_⟩
  · exact fun txs => List.perm_insertionSort txRel txs
  · exact fun txs => List.sorted_insertionSort txRel txs
  · intro txs t f
    have hmemP : ∀ x ∈ txs.filter
        (fun tx => decide (tx.dateTime = t ∧ acqFlag tx.type = f)),
        x.dateTime = t ∧ acqFlag x.type = f := by
      intro x hx
      exact of_decide_eq_true (List.mem_filter.mp hx).2
    have hpair : (txs.filter
        (fun tx => decide (tx.dateTime = t ∧ acqFlag tx.type = f))).Pairwise txRel := by
      apply List.pairwise_of_forall_mem_list
      intro a ha b hb
      obtain ⟨ha1, ha2⟩ := hmemP a ha
      obtain ⟨hb1, hb2⟩ := hmemP b hb
      exact Or.inr ⟨ha1.trans hb1.symm, by rw [ha2, hb2]⟩
    have hsub0 : List.Sublist
        (txs.filter (fun tx => decide (tx.dateTime = t ∧ acqFlag tx.type = f))) txs :=
      List.filter_sublist txs
    have hsub : List.Sublist
        (txs.filter (fun tx => decide (tx.dateTime = t ∧ acqFlag tx.type = f)))
        (sortTransactions txs) :=
      List.sublist_insertionSort hpair hsub0
    have hself : (txs.filter
        (fun tx => decide (tx.dateTime = t ∧ acqFlag tx.type = f))).filter
          (fun tx => decide (tx.dateTime = t ∧ acqFlag tx.type = f)) =
        txs.filter (fun tx => decide (tx.dateTime = t ∧ acqFlag tx.type = f)) := by
      apply List.filter_eq_self.mpr
      intro x hx
      exact (List.mem_filter.mp hx).2
    have hsub2 : List.Sublist
        (txs.filter (fun tx => decide (tx.dateTime = t ∧ acqFlag tx.type = f)))
        ((sortTransactions txs).filter
          (fun tx => decide (tx.dateTime = t ∧ acqFlag tx.type = f))) := by
      rw [← hself]
      exact hsub.filter _
    have hperm : (((sortTransactions txs).filter
        (fun tx => decide (tx.dateTime = t ∧ acqFlag tx.type = f)))).Perm
        (txs.filter (fun tx => decide (tx.dateTime = t ∧ acqFlag tx.type = f))) :=
      (List.perm_insertionSort txRel txs).filter _
    exact (hsub2.eq_of_length hperm.length_eq.symm).symm
  · intro t w A a p q m ha
    have hns : ¬ txRel (sellTx t w A a q) (buyTx t w A a p) := by
      intro hcon
      rcases hcon with h | ⟨_, hf⟩
      · exact absurd h (by simp [sellTx, buyTx])
      · exact absurd hf (by
          simp [sellTx, buyTx, acqFlag, ACQUISITION_TYPES, INCOME_TYPES])
    have hsort : sortTransactions [sellTx t w A a q, buyTx t w A a p] =
        [buyTx t w A a p, sellTx t w A a q] := by
      simp [sortTransactions, List.insertionSort, List.orderedInsert, hns]
    set lot : TaxLot :=
      { id := 1, asset := A, amount := a, originalAmount := a,
        costBasisPerUnit := p, acquisitionDate := t, acquisitionType := .BUY,
        wallet := w } with hlot
    have hstep1 : calcStep m calcInit (buyTx t w A a p) =
        { calcInit with pool := addLot { emptyPool with nextLotId := 2 } lot } := rfl
    have hget : getLots (addLot { emptyPool with nextLotId := 2 } lot) w A = [lot] := by
      have h := getLots_addLot { emptyPool with nextLotId := 2 } lot
      rw [show lot.wallet = w from rfl, show lot.asset = A from rfl] at h
      rw [h]
      rfl
    have hstep2 := processDisposal_single
      (addLot { emptyPool with nextLotId := 2 } lot) w A lot (a * q) t .SELL m hget
      (by rw [show lot.amount = a from rfl]; exact ha)
    rw [show lot.amount = a from rfl] at hstep2
    unfold calculateTaxes calcFinalState
    rw [hsort]
    simp only [List.foldl_cons, List.foldl_nil]
    rw [hstep1]
    constructor
    · simp [calcStep, sellTx, hstep2, calcInit]
    · simp [calcStep, sellTx, hstep2, calcInit]

/-- C5 witness: SELL listed first, BUY second, both at the same instant; the
replay succeeds and the gain is 50000 − 30000 per unit. -/
theorem c5_effective_ordering_witness :
    (calculateTaxes [sellTx 0 "w" "BTC" 1 50000, buyTx 0 "w" "BTC" 1 30000]
      .FIFO).errors = [] ∧
    ((calculateTaxes [sellTx 0 "w" "BTC" 1 50000, buyTx 0 "w" "BTC" 1 30000]
      .FIFO).disposals.map (·.gainOrLoss)) = [1 * 50000 - 1 * 30000] :=
  c5_effective_ordering.2.2.2 0 "w" "BTC" 1 30000 50000 .FIFO (by norm_num)

/-! ### C10 — RECEIVE restarts the holding period; transfer is never invoked -/

theorem consumeLots_transferCount (p : WalletLotPool) (w A : String) (amt : ℚ)
    (m : CostBasisMethod) :
    (consumeLots p w A amt m).1.transferCount = p.transferCount := by
  unfold consumeLots
  dsimp only
  split_ifs <;> rfl

theorem consumeLots_tc_of_eq {p : WalletLotPool} {w A : String} {amt : ℚ}
    {m : CostBasisMethod} {P : WalletLotPool} {o : Option (List TaxLot)}
    (h : consumeLots p w A amt m = (P, o)) : P.transferCount = p.transferCount := by
  rw [← consumeLots_transferCount p w A amt m, h]

theorem processDisposal_tc_of_eq {p : WalletLotPool} {w A : String}
    {amt proceeds : ℚ} {date : ℤ} {dtype : TransactionType} {m : CostBasisMethod}
    {P : WalletLotPool} {o : Option (List DisposalResult)}
    (h : processDisposal p w A amt proceeds date dtype m = (P, o)) :
    P.transferCount = p.transferCount := by
  unfold processDisposal at h
  rcases hcl : consumeLots p w A amt m with ⟨p1, o1⟩
  rw [hcl] at h
  cases o1 with
  | none =>
      cases h.symm
      exact consumeLots_tc_of_eq hcl
  | some consumed =>
      cases h.symm
      exact consumeLots_tc_of_eq hcl

theorem addLot_transferCount (p : WalletLotPool) (lot : TaxLot) :
    (addLot p lot).transferCount = p.transferCount := rfl

theorem generateLotId_transferCount (p : WalletLotPool) :
    (generateLotId p).2.transferCount = p.transferCount := rfl

/-- No branch of the replay switch touches the transfer counter. -/
theorem calcStep_transferCount (m : CostBasisMethod) (st : CalcState)
    (tx : Transaction) :
    (calcStep m st tx).pool.transferCount = st.pool.transferCount := by
  unfold calcStep
  dsimp only
  repeat' split
  any_goals rfl
  any_goals simp only [addLot_transferCount, generateLotId_transferCount]
  all_goals
    first
      | exact consumeLots_tc_of_eq (by assumption)
      | exact processDisposal_tc_of_eq (by assumption)
      | exact (processDisposal_tc_of_eq (by assumption)).trans
          (consumeLots_tc_of_eq (by assumption))

theorem calcFinalState_transferCount (txs : List Transaction)
    (m : CostBasisMethod) : (calcFinalState txs m).pool.transferCount = 0 := by
  unfold calcFinalState
  generalize sortTransactions txs = l
  have h : ∀ st : CalcState,
      (l.foldl (calcStep m) st).pool.transferCount = st.pool.transferCount := by
    induction l with
    | nil => intro st; rfl
    | cons x xs ih =>
        intro st
        rw [List.foldl_cons, ih]
        exact calcStep_transferCount m st x
  exact h calcInit

/-- C10 (confirmed): the RECEIVE branch always adds a brand-new lot dated at
the transaction's own timestamp with the received price (or 0) as basis; the
pool's transfer operation — which would preserve the moved lot's acquisition
instant and basis — is never invoked by the replay (its invocation counter
stays 0 over any transaction list); consequently a SEND/RECEIVE pair leaves a
single residual lot whose acquisition instant is the RECEIVE timestamp, i.e.
the transfer restarts the holding period. -/
theorem c10_receive_restarts_holding :
    (∀ (m : CostBasisMethod) (st : CalcState) (tx : Transaction) (A : String)
        (amt : ℚ),
      tx.type = .RECEIVE → tx.receivedAsset = some A → tx.receivedAmount = some amt →
      calcStep m st tx = { st with pool := addLot (generateLotId st.pool).2 {
          id := (generateLotId st.pool).1, asset := A, amount := amt,
          originalAmount := amt, costBasisPerUnit := tx.receivedAssetPriceUsd.getD 0,
          acquisitionDate := tx.dateTime, acquisitionType := .RECEIVE,
          wallet := tx.wallet } }) ∧
    (∀ (p : WalletLotPool) (w1 w2 A : String) (lot : TaxLot),
      getLots p w1 A = [lot] → lot.asset = A → 0 < lot.amount →
      (transferLots p w1 w2 A lot.amount).2 = true ∧
      getLots (transferLots p w1 w2 A lot.amount).1 w2 A =
        getLots (setLots { p with transferCount := p.transferCount + 1 } w1 A []) w2 A
          ++ [{ lot with id := p.nextLotId, wallet := w2 }]) ∧
    (∀ (txs : List Transaction) (m : CostBasisMethod),
      (calcFinalState txs m).pool.transferCount = 0) ∧
    (∀ (t0 t1 t2 : ℤ) (w1 w2 A : String) (a p p' : ℚ) (m : CostBasisMethod),
      t0 < t1 → t1 < t2 → 0 < a → w1 ≠ w2 →
      (calculateTaxes [buyTx t0 w1 A a p, sendTx t1 w1 A a, recvTx t2 w2 A a p']
          m).remainingLots =
        [{ id := 2, asset := A, amount := a, originalAmount := a,
           costBasisPerUnit := p', acquisitionDate := t2, acquisitionType := .RECEIVE,
           wallet := w2 }]) := by
  refine ⟨?_, ?_, calcFinalState_transferCount, ?_⟩
  · intro m st tx A amt hty hra hrm
    unfold calcStep
    rw [hty, hra, hrm]
  · intro p w1 w2 A lot hget hA ha
    subst hA
    unfold transferLots
    dsimp only
    rw [consumeLots_single { p with transferCount := p.transferCount + 1 }
      w1 lot.asset lot .FIFO hget ha]
    refine ⟨rfl, ?_⟩
    simp only [List.foldl_cons, List.foldl_nil]
    exact getLots_addLot _ _
  · intro t0 t1 t2 w1 w2 A a p p' m h01 h12 ha hw
    have hr1 : txRel (buyTx t0 w1 A a p) (sendTx t1 w1 A a) := Or.inl h01
    have hr2 : txRel (sendTx t1 w1 A a) (recvTx t2 w2 A a p') := Or.inl h12
    have hr3 : txRel (buyTx t0 w1 A a p) (recvTx t2 w2 A a p') :=
      Or.inl (lt_trans h01 h12)
    have hsort : sortTransactions
        [buyTx t0 w1 A a p, sendTx t1 w1 A a, recvTx t2 w2 A a p'] =
        [buyTx t0 w1 A a p, sendTx t1 w1 A a, recvTx t2 w2 A a p'] := by
      simp [sortTransactions, List.insertionSort, List.orderedInsert, hr1, hr2, hr3]
    set lotB : TaxLot :=
      { id := 1, asset := A, amount := a, originalAmount := a,
        costBasisPerUnit := p, acquisitionDate := t0, acquisitionType := .BUY,
        wallet := w1 } with hlotB
    have hstep1 : calcStep m calcInit (buyTx t0 w1 A a p) =
        { calcInit with pool := addLot { emptyPool with nextLotId := 2 } lotB } := rfl
    have hget : getLots (addLot { emptyPool with nextLotId := 2 } lotB) w1 A =
        [lotB] := by
      have h := getLots_addLot { emptyPool with nextLotId := 2 } lotB
      rw [show lotB.wallet = w1 from rfl, show lotB.asset = A from rfl] at h
      rw [h]
      rfl
    have hcons := consumeLots_single (addLot { emptyPool with nextLotId := 2 } lotB)
      w1 A lotB .FIFO hget (by rw [show lotB.amount = a from rfl]; exact ha)
    rw [show lotB.amount = a from rfl] at hcons
    have hstep2 : calcStep m
        { calcInit with pool := addLot { emptyPool with nextLotId := 2 } lotB }
        (sendTx t1 w1 A a) =
        { calcInit with
          pool := setLots (addLot { emptyPool with nextLotId := 2 } lotB) w1 A [] } := by
      unfold calcStep
      dsimp only [sendTx]
      rw [hcons]
    have hstep3 : calcStep m
        { calcInit with
          pool := setLots (addLot { emptyPool with nextLotId := 2 } lotB) w1 A [] }
        (recvTx t2 w2 A a p') =
        { calcInit with
          pool := addLot
            { (setLots (addLot { emptyPool with nextLotId := 2 } lotB) w1 A []) with
              nextLotId := 3 }
            { id := 2, asset := A, amount := a, originalAmount := a,
              costBasisPerUnit := p', acquisitionDate := t2,
              acquisitionType := .RECEIVE, wallet := w2 } } := rfl
    unfold calculateTaxes calcFinalState
    rw [hsort]
    simp only [List.foldl_cons, List.foldl_nil]
    rw [hstep1, hstep2, hstep3]
    simp only [hlotB]
    simp [getAllRemainingLots, addLot, setLots, emptyPool, assocGet, assocSet,
      getLots, hw, ha]

/-- C10 witness: a BUY at t=0 in wallet w1 followed by a SEND/RECEIVE pair
leaves one residual lot acquired at the RECEIVE's own timestamp. -/
theorem c10_receive_restarts_holding_witness :
    (calculateTaxes [buyTx 0 "w1" "BTC" 1 30000, sendTx 1000 "w1" "BTC" 1,
        recvTx 2000 "w2" "BTC" 1 31000] .FIFO).remainingLots =
      [{ id := 2, asset := "BTC", amount := 1, originalAmount := 1,
         costBasisPerUnit := 31000, acquisitionDate := 2000,
         acquisitionType := .RECEIVE, wallet := "w2" }] :=
  c10_receive_restarts_holding.2.2.2 0 1000 2000 "w1" "w2" "BTC" 1 30000 31000 .FIFO
    (by norm_num) (by norm_num) (by norm_num) (by decide)

/-! ### C3 — numeric validation of the native parser -/

theorem mem_ite_singleton {c : Prop} [Decidable c] (e x : RowError) :
    (e ∈ if c then [x] else []) ↔ c ∧ e = x := by
  split_ifs with h <;> simp [h]

theorem mem_posErr (e : RowError) (g : NumFieldName) (c : NumCell) :
    e ∈ posErr g c ↔ ∃ q, c = .num q ∧ q ≤ 0 ∧ e = .nonPositive g := by
  cases c with
  | blank => simp [posErr]
  | malformed => simp [posErr]
  | num q =>
      by_cases h : q ≤ 0
      · simp [posErr, h]
      · simp [posErr, h]

theorem mem_parseErr (e : RowError) (g : NumFieldName) (c : NumCell) :
    e ∈ parseErr g c ↔ c = .malformed ∧ e = .invalidNumber g := by
  cases c <;> simp [parseErr]

/-- C3 (counterexample): a syntactically valid BUY row whose
`sent_asset_price_usd` is the strictly negative, non-blank value −5 produces
no error at all, contradicting the claim that zero-or-negative values in any
of the six numeric fields are rejected with a field error. -/
theorem c3_negative_price_counterexample :
    c3Row.sent_asset_price_usd = .num (-5) ∧ (parseRow c3Row).errors = [] := by
  constructor
  · rfl
  · rfl

/-- C3 (amended): the parser's positivity check covers exactly `sent_amount`,
`received_amount`, `fee_amount` and `fee_usd`, and its parse-failure check
covers exactly `sent_amount` and `received_amount`; the two unit-price columns
are never the subject of a non-positive or invalid-number error (an
unparseable value there is silently treated as blank), and blank cells never
produce such errors. -/
theorem c3_numeric_validation (row : CsvRow) (f : NumFieldName) :
    (RowError.nonPositive f ∈ (parseRow row).errors ↔
      (f = .sent_amount ∨ f = .received_amount ∨ f = .fee_amount ∨ f = .fee_usd) ∧
      ∃ q, row.numCell f = .num q ∧ q ≤ 0) ∧
    (RowError.invalidNumber f ∈ (parseRow row).errors ↔
      (f = .sent_amount ∨ f = .received_amount) ∧ row.numCell f = .malformed) := by
  rcases row with ⟨dt, tt, sa, sam, sap, ra, ram, rap, fam, fas, fu, w, th, no⟩
  unfold parseRow
  dsimp only
  cases dt <;> cases tt <;> cases f <;>
    simp [List.mem_append, mem_posErr, mem_parseErr, mem_ite_singleton,
      CsvRow.numCell]

/-! ### C8 — oracle frugality of the price enricher -/

theorem mem_insertUniq {x s : String} {l : List String} :
    x ∈ insertUniq l s ↔ x ∈ l ∨ x = s := by
  unfold insertUniq
  split_ifs with h
  · refine ⟨Or.inl, ?_⟩
    rintro (h' | rfl)
    · exact h'
    · exact h
  · simp

theorem insertUniq_nodup {l : List String} (h : l.Nodup) (s : String) :
    (insertUniq l s).Nodup := by
  unfold insertUniq
  split_ifs with hs
  · exact h
  · simp [List.nodup_append, h, hs]

theorem tickerStep_nodup {acc : List String} (h : acc.Nodup) (row : EnrichRow) :
    (tickerStep acc row).Nodup := by
  unfold tickerStep
  cases rowTickerRecv row <;> cases rowTickerSent row <;>
    simp only [] <;>
    first
      | exact h
      | exact insertUniq_nodup h _
      | exact insertUniq_nodup (insertUniq_nodup h _) _

theorem mem_tickerStep {acc : List String} {row : EnrichRow} {t : String} :
    t ∈ tickerStep acc row ↔
      t ∈ acc ∨ rowTickerRecv row = some t ∨ rowTickerSent row = some t := by
  unfold tickerStep
  cases hr : rowTickerRecv row <;> cases hs : rowTickerSent row <;>
    (simp [mem_insertUniq, eq_comm]; try tauto)

theorem rowTickerRecv_needs {row : EnrichRow} {t : String}
    (h : rowTickerRecv row = some t) : legNeedsPrice row t := by
  unfold rowTickerRecv at h
  split_ifs at h with hc
  exact Or.inl ⟨hc.2.2.2, hc.2.1, Option.some.inj h⟩

theorem rowTickerSent_needs {row : EnrichRow} {t : String}
    (h : rowTickerSent row = some t) : legNeedsPrice row t := by
  unfold rowTickerSent at h
  split_ifs at h with hc
  exact Or.inr ⟨hc.2.2.2, hc.2.1, Option.some.inj h⟩

theorem rowTickerRecv_eq_none {row : EnrichRow}
    (h : ∀ t, ¬ legNeedsPrice row t) : rowTickerRecv row = none := by
  cases hv : rowTickerRecv row with
  | none => rfl
  | some t => exact absurd (rowTickerRecv_needs hv) (h t)

theorem rowTickerSent_eq_none {row : EnrichRow}
    (h : ∀ t, ¬ legNeedsPrice row t) : rowTickerSent row = none := by
  cases hv : rowTickerSent row with
  | none => rfl
  | some t => exact absurd (rowTickerSent_needs hv) (h t)

theorem collectTickers_go_nodup (rows : List EnrichRow) (acc : List String)
    (h : acc.Nodup) : (rows.foldl tickerStep acc).Nodup := by
  induction rows generalizing acc with
  | nil => simpa using h
  | cons r rs ih => exact ih _ (tickerStep_nodup h r)

theorem collectTickers_go_mem (rows : List EnrichRow) (acc : List String)
    (t : String) (h : t ∈ rows.foldl tickerStep acc) :
    t ∈ acc ∨
      ∃ row ∈ rows, rowTickerRecv row = some t ∨ rowTickerSent row = some t := by
  induction rows generalizing acc with
  | nil => exact Or.inl (by simpa using h)
  | cons r rs ih =>
      rcases ih _ h with hmem | ⟨row, hrow, hT⟩
      · rcases mem_tickerStep.mp hmem with hacc | hR
        · exact Or.inl hacc
        · exact Or.inr ⟨r, List.mem_cons_self r rs, hR⟩
      · exact Or.inr ⟨row, List.mem_cons_of_mem r hrow, hT⟩

theorem collectTickers_go_none (rows : List EnrichRow) (acc : List String)
    (h : ∀ row ∈ rows, rowTickerRecv row = none ∧ rowTickerSent row = none) :
    rows.foldl tickerStep acc = acc := by
  induction rows generalizing acc with
  | nil => rfl
  | cons r rs ih =>
      have hr := h r (List.mem_cons_self r rs)
      have hstep : tickerStep acc r = acc := by
        unfold tickerStep
        rw [hr.1, hr.2]
      rw [List.foldl_cons, hstep]
      exact ih _ (fun row hrow => h row (List.mem_cons_of_mem r hrow))

/-- C8: the oracle-call sequence of `enrichPrices` contains no duplicate
ticker (so the oracle is called at most once per unique ticker); every ticker
called comes from some row with a leg whose unit price is blank and whose
currency is not USD; and when no row has such a leg no oracle call is made. -/
theorem c8_oracle_frugality (rows : List EnrichRow) :
    (oracleCalls rows).Nodup ∧
    (∀ t ∈ oracleCalls rows, ∃ row ∈ rows, legNeedsPrice row t) ∧
    ((∀ row ∈ rows, ∀ t, ¬ legNeedsPrice row t) → oracleCalls rows = []) := by
  refine ⟨collectTickers_go_nodup rows [] List.nodup_nil, ?_, ?_⟩
  · intro t ht
    rcases collectTickers_go_mem rows [] t ht with h | ⟨row, hrow, hR | hS⟩
    · exact absurd h (List.not_mem_nil t)
    · exact ⟨row, hrow, rowTickerRecv_needs hR⟩
    · exact ⟨row, hrow, rowTickerSent_needs hS⟩
  · intro h
    exact collectTickers_go_none rows []
      (fun row hrow =>
        ⟨rowTickerRecv_eq_none (h row hrow), rowTickerSent_eq_none (h row hrow)⟩)

/-! ### C9 — format detection refines the spec's first-non-blank-line reading -/

theorem splitOnC_ne_nil (sep : Char) (l : List Char) : splitOnC sep l ≠ [] := by
  cases l with
  | nil => simp [splitOnC]
  | cons c cs =>
      unfold splitOnC
      split_ifs
      · simp
      · cases splitOnC sep cs <;> simp

theorem splitOnC_cons_sep (sep : Char) (cs : List Char) :
    splitOnC sep (sep :: cs) = [] :: splitOnC sep cs := by
  show (if sep = sep then [] :: splitOnC sep cs
    else match splitOnC sep cs with
      | [] => [[sep]]
      | h :: t => (sep :: h) :: t) = [] :: splitOnC sep cs
  rw [if_pos rfl]

theorem splitOnC_cons_ne {sep c : Char} (h : c ≠ sep) (cs : List Char)
    {hd : List Char} {tl : List (List Char)} (hs : splitOnC sep cs = hd :: tl) :
    splitOnC sep (c :: cs) = (c :: hd) :: tl := by
  unfold splitOnC
  rw [if_neg h, hs]

theorem ws_ne_comma {c : Char} (h : isWS c) : c ≠ ',' := by
  simp only [isWS, decide_eq_true_eq] at h
  rcases h with rfl | rfl | rfl | rfl <;> decide

theorem trimR_cons (c : Char) (x : List Char) :
    trimR (c :: x) =
      if trimR x = [] then (if isWS c then [] else [c]) else c :: trimR x := by
  unfold trimR
  rw [show (c :: x).reverse = x.reverse ++ [c] from by simp, List.dropWhile_append]
  by_cases h : x.reverse.dropWhile isWS = []
  · rw [if_pos (by simp [h]), if_pos (by simp [h])]
    by_cases hc : isWS c
    · rw [if_pos hc]
      simp [List.dropWhile, hc]
    · rw [if_neg hc]
      simp [List.dropWhile, hc]
  · rw [if_neg (by simp [h]), if_neg (by simp [h])]
    simp

theorem trimC_ws_cons {c : Char} (hc : isWS c) (x : List Char) :
    trimC (c :: x) = trimC x := by
  unfold trimC
  rw [trimR_cons, if_pos hc]
  by_cases h1 : trimR x = []
  · rw [if_pos h1, h1]
  · rw [if_neg h1]
    unfold trimL
    rw [List.dropWhile_cons, if_pos hc]

theorem trimC_append_ws {c : Char} (hc : isWS c) (x : List Char) :
    trimC (x ++ [c]) = trimC x := by
  unfold trimC trimR
  rw [show (x ++ [c]).reverse = c :: x.reverse from by simp,
    List.dropWhile_cons, if_pos hc]

theorem trimC_cons_not_ws {c : Char} (hc : ¬ isWS c) (x : List Char) :
    trimC (c :: x) ≠ [] := by
  unfold trimC
  rw [trimR_cons, if_neg hc]
  by_cases h1 : trimR x = []
  · rw [if_pos h1]
    unfold trimL
    rw [List.dropWhile_cons, if_neg hc]
    simp
  · rw [if_neg h1]
    unfold trimL
    rw [List.dropWhile_cons, if_neg hc]
    simp

theorem dropWhile_head_false {p : Char → Bool} :
    ∀ {l : List Char} {a : Char} {t : List Char},
      List.dropWhile p l = a :: t → p a = false := by
  intro l
  induction l with
  | nil => intro a t h; exact absurd h (by simp)
  | cons c cs ih =>
      intro a t h
      rw [List.dropWhile_cons] at h
      by_cases hc : p c
      · rw [if_pos hc] at h
        exact ih h
      · rw [if_neg hc] at h
        cases h
        exact Bool.not_eq_true _ ▸ (by simpa using hc)

theorem trimR_eq_nil_of_trimC {l : List Char} (h : trimC l = []) :
    trimR l = [] := by
  by_contra hne
  have hd : l.reverse.dropWhile isWS ≠ [] := by
    intro h0
    exact hne (by unfold trimR; rw [h0]; rfl)
  obtain ⟨a, t, ht⟩ := List.exists_cons_of_ne_nil hd
  have ha : isWS a = false := dropWhile_head_false ht
  unfold trimC trimL trimR at h
  rw [ht] at h
  have := List.dropWhile_eq_nil_iff.mp h a
    (by simp)
  rw [ha] at this
  exact Bool.false_ne_true this

theorem ws_of_trimC_nil {l : List Char} (h : trimC l = []) :
    ∀ c ∈ l, isWS c := by
  have hR := trimR_eq_nil_of_trimC h
  unfold trimR at hR
  have hR2 : l.reverse.dropWhile isWS = [] := List.reverse_eq_nil_iff.mp hR
  intro c hc
  exact List.dropWhile_eq_nil_iff.mp hR2 c (List.mem_reverse.mpr hc)

theorem splitOnC_eq_single {sep : Char} {l : List Char}
    (h : ∀ c ∈ l, c ≠ sep) : splitOnC sep l = [l] := by
  induction l with
  | nil => rfl
  | cons c cs ih =>
      unfold splitOnC
      rw [if_neg (h c (List.mem_cons_self c cs)),
        ih (fun d hd => h d (List.mem_cons_of_mem c hd))]

theorem headerCells_of_blank {l : List Char} (h : trimC l = []) :
    headerCells l = [[]] := by
  unfold headerCells
  rw [splitOnC_eq_single (fun c hc => ws_ne_comma (ws_of_trimC_nil h c hc))]
  simp [h]

theorem splitOnC_append_ne {sep c : Char} (h : c ≠ sep) (u : List Char) :
    splitOnC sep (u ++ [c]) = mapLast (· ++ [c]) (splitOnC sep u) := by
  induction u with
  | nil => simp [splitOnC, if_neg h, mapLast]
  | cons a u ih =>
      obtain ⟨hd, tl, hs⟩ := List.exists_cons_of_ne_nil (splitOnC_ne_nil sep u)
      by_cases ha : a = sep
      · subst ha
        rw [List.cons_append, splitOnC_cons_sep, splitOnC_cons_sep, ih, hs]
        rfl
      · rw [hs] at ih
        cases tl with
        | nil =>
            rw [List.cons_append,
              splitOnC_cons_ne ha (u ++ [c]) (ih.trans rfl),
              splitOnC_cons_ne ha u hs]
            rfl
        | cons y ys =>
            rw [List.cons_append,
              splitOnC_cons_ne ha (u ++ [c]) (ih.trans rfl),
              splitOnC_cons_ne ha u hs]
            rfl

theorem splitOnC_append_sep (sep : Char) (u : List Char) :
    splitOnC sep (u ++ [sep]) = splitOnC sep u ++ [[]] := by
  induction u with
  | nil => simp [splitOnC]
  | cons a u ih =>
      by_cases ha : a = sep
      · subst ha
        rw [List.cons_append, splitOnC_cons_sep, ih, splitOnC_cons_sep]
        rfl
      · obtain ⟨hd, tl, hs⟩ := List.exists_cons_of_ne_nil (splitOnC_ne_nil sep u)
        rw [List.cons_append,
          splitOnC_cons_ne ha (u ++ [sep]) (ih.trans (by rw [hs]; rfl)),
          splitOnC_cons_ne ha u hs]
        rfl

theorem map_trimC_mapLast {c : Char} (hc : isWS c) :
    ∀ L : List (List Char), (mapLast (· ++ [c]) L).map trimC = L.map trimC
  | [] => rfl
  | [x] => by simp [mapLast, trimC_append_ws hc]
  | x :: y :: ys => by
      show trimC x :: (mapLast (fun z => z ++ [c]) (y :: ys)).map trimC =
        trimC x :: (y :: ys).map trimC
      rw [map_trimC_mapLast hc (y :: ys)]

theorem headerCells_ws_cons {c : Char} (hc : isWS c) (u : List Char) :
    headerCells (c :: u) = headerCells u := by
  obtain ⟨hd, tl, hs⟩ := List.exists_cons_of_ne_nil (splitOnC_ne_nil ',' u)
  unfold headerCells
  rw [splitOnC_cons_ne (ws_ne_comma hc) u hs, hs]
  simp [trimC_ws_cons hc]

theorem headerCells_append_ws {c : Char} (hc : isWS c) (u : List Char) :
    headerCells (u ++ [c]) = headerCells u := by
  unfold headerCells
  rw [splitOnC_append_ne (ws_ne_comma hc) u, map_trimC_mapLast hc]

theorem firstNonBlankLine_blank_cons {l : List Char} (h : trimC l = [])
    (L : List (List Char)) :
    firstNonBlankLine (l :: L) = firstNonBlankLine L := by
  show (if trimC l = [] then firstNonBlankLine L else l) = firstNonBlankLine L
  rw [if_pos h]

theorem firstNonBlankLine_append_blank {b : List Char} (hb : trimC b = []) :
    ∀ L : List (List Char), firstNonBlankLine (L ++ [b]) = firstNonBlankLine L
  | [] => by
      show firstNonBlankLine [b] = firstNonBlankLine []
      rw [firstNonBlankLine_blank_cons hb]
  | l :: L => by
      by_cases hl : trimC l = []
      · rw [List.cons_append, firstNonBlankLine_blank_cons hl,
          firstNonBlankLine_blank_cons hl]
        exact firstNonBlankLine_append_blank hb L
      · rw [List.cons_append]
        unfold firstNonBlankLine
        rw [if_neg hl, if_neg hl]

theorem headerCells_fnb_mapLast {c : Char} (hc : isWS c) :
    ∀ L : List (List Char),
      headerCells (firstNonBlankLine (mapLast (· ++ [c]) L)) =
      headerCells (firstNonBlankLine L)
  | [] => rfl
  | [x] => by
      by_cases hx : trimC x = []
      · have hx' : trimC (x ++ [c]) = [] := by rw [trimC_append_ws hc, hx]
        show headerCells (firstNonBlankLine [x ++ [c]]) =
          headerCells (firstNonBlankLine [x])
        rw [firstNonBlankLine_blank_cons hx', firstNonBlankLine_blank_cons hx]
      · have hx' : trimC (x ++ [c]) ≠ [] := by
          rw [trimC_append_ws hc]
          exact hx
        show headerCells (firstNonBlankLine [x ++ [c]]) =
          headerCells (firstNonBlankLine [x])
        unfold firstNonBlankLine
        rw [if_neg hx', if_neg hx]
        exact headerCells_append_ws hc x
  | x :: y :: ys => by
      by_cases hx : trimC x = []
      · show headerCells (firstNonBlankLine (x :: mapLast (· ++ [c]) (y :: ys))) =
          headerCells (firstNonBlankLine (x :: y :: ys))
        rw [firstNonBlankLine_blank_cons hx, firstNonBlankLine_blank_cons hx]
        exact headerCells_fnb_mapLast hc (y :: ys)
      · show headerCells (firstNonBlankLine (x :: mapLast (· ++ [c]) (y :: ys))) =
          headerCells (firstNonBlankLine (x :: y :: ys))
        unfold firstNonBlankLine
        rw [if_neg hx, if_neg hx]

theorem detect_G_append_ws_char {c : Char} (hc : isWS c) (u : List Char) :
    headerCells (firstNonBlankLine (splitOnC '\n' (u ++ [c]))) =
    headerCells (firstNonBlankLine (splitOnC '\n' u)) := by
  by_cases hn : c = '\n'
  · subst hn
    rw [splitOnC_append_sep,
      firstNonBlankLine_append_blank (show trimC ([] : List Char) = [] from rfl)]
  · rw [splitOnC_append_ne hn u, headerCells_fnb_mapLast hc]

theorem detect_G_append_ws (w : List Char) :
    (∀ c ∈ w, isWS c) → ∀ u : List Char,
      headerCells (firstNonBlankLine (splitOnC '\n' (u ++ w))) =
      headerCells (firstNonBlankLine (splitOnC '\n' u)) := by
  induction w with
  | nil =>
      intro _ u
      simp
  | cons c w ih =>
      intro hw u
      rw [show u ++ c :: w = (u ++ [c]) ++ w from by simp,
        ih (fun d hd => hw d (List.mem_cons_of_mem c hd)) (u ++ [c])]
      exact detect_G_append_ws_char (hw c (List.mem_cons_self c w)) u

theorem detect_G_trimR (y : List Char) :
    headerCells (firstNonBlankLine (splitOnC '\n' (trimR y))) =
    headerCells (firstNonBlankLine (splitOnC '\n' y)) := by
  have hdecomp : trimR y ++ (y.reverse.takeWhile isWS).reverse = y := by
    calc trimR y ++ (y.reverse.takeWhile isWS).reverse
        = (y.reverse.takeWhile isWS ++ y.reverse.dropWhile isWS).reverse := by
          unfold trimR
          rw [List.reverse_append]
      _ = y := by
          rw [List.takeWhile_append_dropWhile, List.reverse_reverse]
  have hws : ∀ c ∈ (y.reverse.takeWhile isWS).reverse, isWS c := by
    intro c hc
    exact List.mem_takeWhile_imp (List.mem_reverse.mp hc)
  conv_rhs => rw [← hdecomp]
  exact (detect_G_append_ws _ hws (trimR y)).symm

theorem detect_headD_trimL (y : List Char) :
    headerCells ((splitOnC '\n' (trimL y)).headD []) =
    headerCells (firstNonBlankLine (splitOnC '\n' y)) := by
  induction y with
  | nil => rfl
  | cons c cs ih =>
      by_cases hws : isWS c
      · have htl : trimL (c :: cs) = trimL cs := by
          unfold trimL
          rw [List.dropWhile_cons, if_pos hws]
        rw [htl]
        by_cases hn : c = '\n'
        · subst hn
          rw [splitOnC_cons_sep,
            firstNonBlankLine_blank_cons (show trimC ([] : List Char) = [] from rfl)]
          exact ih
        · obtain ⟨hd, tl, hs⟩ :=
            List.exists_cons_of_ne_nil (splitOnC_ne_nil '\n' cs)
          rw [splitOnC_cons_ne hn cs hs]
          by_cases hb : trimC hd = []
          · have hb' : trimC (c :: hd) = [] := by rw [trimC_ws_cons hws, hb]
            rw [firstNonBlankLine_blank_cons hb', ih, hs,
              firstNonBlankLine_blank_cons hb]
          · have hb' : trimC (c :: hd) ≠ [] := by
              rw [trimC_ws_cons hws]
              exact hb
            unfold firstNonBlankLine
            rw [if_neg hb', headerCells_ws_cons hws, ih, hs]
            unfold firstNonBlankLine
            rw [if_neg hb]
      · have hn : c ≠ '\n' := fun h => hws (by rw [h]; decide)
        have htl : trimL (c :: cs) = c :: cs := by
          unfold trimL
          rw [List.dropWhile_cons, if_neg hws]
        obtain ⟨hd, tl, hs⟩ :=
          List.exists_cons_of_ne_nil (splitOnC_ne_nil '\n' cs)
        rw [htl, splitOnC_cons_ne hn cs hs,
          show ((c :: hd) :: tl).headD [] = c :: hd from rfl]
        unfold firstNonBlankLine
        rw [if_neg (trimC_cons_not_ws hws hd)]

theorem detect_firstLine_eq (csv : List Char) :
    headerCells ((splitOnC '\n' (trimC csv)).headD []) =
    headerCells (firstNonBlankLine (splitOnC '\n' csv)) := by
  show headerCells ((splitOnC '\n' (trimL (trimR csv))).headD []) =
    headerCells (firstNonBlankLine (splitOnC '\n' csv))
  rw [detect_headD_trimL (trimR csv)]
  exact detect_G_trimR csv

theorem detect_eq_spec (csv : List Char) :
    detectCsvFormat csv = detectSpec csv := by
  unfold detectCsvFormat detectSpec specHeaderCells
  dsimp only
  by_cases hb : trimC ((splitOnC '\n' (trimC csv)).headD []) = []
  · rw [if_pos hb]
    have h1 : headerCells (firstNonBlankLine (splitOnC '\n' csv)) = [[]] := by
      rw [← detect_firstLine_eq csv]
      exact headerCells_of_blank hb
    rw [h1]
    decide
  · rw [if_neg hb, detect_firstLine_eq csv]

/-- C9: the detector agrees everywhere with the spec's reading — split the
input on newlines, take the first non-blank line, split it on commas, trim
each header, then test the native superset, then the CoinTracker superset,
else `unknown`; whitespace-only input yields `unknown`; and two inputs with
the same first non-blank line (in particular, ones differing only in data
rows) always detect identically. -/
theorem c9_format_detection (csv : List Char) :
    detectCsvFormat csv = detectSpec csv ∧
    (trimC csv = [] → detectCsvFormat csv = .unknown) ∧
    (∀ csv2 : List Char,
      firstNonBlankLine (splitOnC '\n' csv) =
        firstNonBlankLine (splitOnC '\n' csv2) →
      detectCsvFormat csv = detectCsvFormat csv2) := by
  refine ⟨detect_eq_spec csv, ?_, ?_⟩
  · intro h
    unfold detectCsvFormat
    rw [h]
    rfl
  · intro csv2 h
    rw [detect_eq_spec csv, detect_eq_spec csv2]
    unfold detectSpec specHeaderCells
    rw [h]

/-- C9 witness: a whitespace-only input (one space, a newline, a tab) is
detected as `unknown`. -/
theorem c9_format_detection_witness :
    detectCsvFormat [' ', '\n', '\t'] = .unknown :=
  (c9_format_detection [' ', '\n', '\t']).2.1 (by decide)

/-- C8 witness: over a one-row file whose received leg has a blank price and
the non-USD ticker BTC, that leg is among the legs needing a price, obtained
by instantiating the frugality theorem's membership clause at BTC. -/
theorem c8_oracle_frugality_witness :
    ∃ row ∈ [c8Row], legNeedsPrice row "BTC" :=
  (c8_oracle_frugality [c8Row]).2.1 "BTC" (by decide)

end CryptoTax
